import Mathlib

/-!
Verification development for the plan-execution engine in
`src/agents/agents.py` and `src/utils/state.py`.

Python runtime values that flow through the engine (slot records, step
dictionaries, tool outputs, blackboard fields) are modelled by the inductive
type `Val`.  Python `dict`s are association lists (`Dict`) whose update
semantics (`dSet`) replaces the first binding in place and otherwise appends,
matching insertion-ordered Python dictionaries.  Numbers are modelled as
rationals; the engine only stores and compares them, it never does float
arithmetic on them.
-/

/-- Model of a Python runtime value. -/
inductive Val where
  | vNull : Val
  | vBool : Bool → Val
  | vNum : ℚ → Val
  | vStr : String → Val
  | vArr : List Val → Val
  | vObj : List (String × Val) → Val

/-- A Python dict: insertion-ordered association list. -/
abbrev Dict := List (String × Val)

namespace Val

/-- `dict.get(k)`: value of the first binding of `k`. -/
def dGet : Dict → String → Option Val
  | [], _ => none
  | (k', v) :: rest, k => if k' = k then some v else dGet rest k

/-- `dict[k] = v`: replace the first binding of `k` in place, else append. -/
def dSet : Dict → String → Val → Dict
  | [], k, v => [(k, v)]
  | (k', v') :: rest, k, v => if k' = k then (k, v) :: rest else (k', v') :: dSet rest k v

/-- `dict.pop(k, None)`: remove the binding of `k`. -/
def dRemove (d : Dict) (k : String) : Dict :=
  d.filter (fun p => p.1 ≠ k)

/-- The keys of a dict, in order. -/
def dKeys (d : Dict) : List String :=
  d.map (·.1)

/-- `k in dict`. -/
def dHasKey (d : Dict) (k : String) : Bool :=
  (dGet d k).isSome

/-- `dict.get(k, default)`. -/
def dGetD (d : Dict) (k : String) (dflt : Val) : Val :=
  (dGet d k).getD dflt

/-- Python truthiness (`bool(v)`). -/
def pyTruthy : Val → Bool
  | vNull => false
  | vBool b => b
  | vNum q => decide (q ≠ 0)
  | vStr s => !(s == (""))
  | vArr xs => !xs.isEmpty
  | vObj m => !m.isEmpty

/-- Python `v == "lit"` for a runtime value and a string literal: true exactly
when `v` is that string.  (Every equality comparison in the engine compares a
runtime value against a string literal.) -/
def isStr (v : Val) (s : String) : Bool :=
  match v with
  | vStr t => t == s
  | _ => false

/-- Python `a or b`. -/
def pyOr (a b : Val) : Val :=
  if pyTruthy a then a else b

/-- `v.get(k)` guarded by `isinstance(v, dict)`: `None` when `v` is not a dict
or the key is missing. -/
def valGetD (v : Val) (k : String) : Val :=
  match v with
  | vObj m => dGetD m k vNull
  | _ => vNull

end Val

open Val

/-!
## Python string rendering

`str()` / f-string interpolation of the values the engine formats.  Naturals
are rendered in decimal via a fuel-indexed helper (`fuel ≥ n` suffices);
rationals whose denominator divides a power of ten are rendered as Python
renders the corresponding decimal literal.
-/

/-- Decimal digits of `n` (most significant first); `fuel ≥ n` suffices. -/
def pyRepAux : Nat → Nat → List Char
  | 0, _ => []
  | fuel + 1, n => if n = 0 then [] else pyRepAux fuel (n / 10) ++ [Nat.digitChar (n % 10)]

/-- Python `str(n)` for a natural number. -/
def pyNatRepr (n : Nat) : String :=
  if n = 0 then ("0") else String.mk (pyRepAux n n)

/-- Decimal read-back of a digit list (left inverse of `pyRepAux`). -/
def unrep (cs : List Char) : Nat :=
  cs.foldl (fun a c => a * 10 + (c.toNat - 48)) 0

def padLeftZeros (k : Nat) (s : String) : String :=
  String.mk (List.replicate (k - s.length) ('0')) ++ s

/-- Python `str(q)` for a numeric literal, modelled on the rational carrying
its value: decimal rendering when the denominator divides a power of ten. -/
def pyNumRepr (q : ℚ) : String :=
  let sign := if q < 0 then ("-") else ("")
  let n := q.num.natAbs
  let d := q.den
  match (List.range 65).find? (fun k => 10 ^ k % d = 0) with
  | some 0 => sign ++ pyNatRepr n
  | some k =>
      let scaled := n * ((10 ^ k) / d)
      sign ++ pyNatRepr (scaled / 10 ^ k) ++ (".") ++ padLeftZeros k (pyNatRepr (scaled % 10 ^ k))
  | none => sign ++ pyNatRepr n ++ ("/") ++ pyNatRepr d

def joinWith (sep : String) : List String → String
  | [] => ("")
  | [x] => x
  | x :: y :: rest => x ++ sep ++ joinWith sep (y :: rest)

/-- Python `repr()` of a value (container elements are rendered with `repr`);
the fuel is an upper bound on nesting depth. -/
def pyReprAux : Nat → Val → String
  | _, .vNull => ("None")
  | _, .vBool true => ("True")
  | _, .vBool false => ("False")
  | _, .vNum q => pyNumRepr q
  | _, .vStr s => ("'") ++ s ++ ("'")
  | 0, _ => ("")
  | fuel + 1, .vArr xs => ("[") ++ joinWith (", ") (xs.map (pyReprAux fuel)) ++ ("]")
  | fuel + 1, .vObj m =>
      ("\x7b") ++ joinWith (", ") (m.map (fun kv => ("'") ++ kv.1 ++ ("': ") ++ pyReprAux fuel kv.2)) ++ ("\x7d")

/-- Nesting depth of a value (fuel bound for the renderer). -/
def vDepth : Val → Nat
  | .vArr xs => 1 + (xs.attach.map (fun x => vDepth x.1)).foldl max 0
  | .vObj m => 1 + (m.attach.map (fun kv => vDepth kv.1.2)).foldl max 0
  | _ => 0
termination_by v => sizeOf v
decreasing_by
  · have := List.sizeOf_lt_of_mem x.2
    simp only [Val.vArr.sizeOf_spec]
    omega
  · have := List.sizeOf_lt_of_mem kv.2
    have h2 : sizeOf kv.1.2 < sizeOf kv.1 := by
      rcases kv.1 with ⟨a, b⟩
      simp only [Prod.mk.sizeOf_spec]
      omega
    simp only [Val.vObj.sizeOf_spec]
    omega

/-- Python `str()` of a value. -/
def pyStr : Val → String
  | .vStr s => s
  | .vNull => ("None")
  | .vBool true => ("True")
  | .vBool false => ("False")
  | .vNum q => pyNumRepr q
  | v => pyReprAux (vDepth v) v

/-!
## Character/string helpers (Python `str.strip`, `str.lower`, `in`)
-/

def pyIsSpace (c : Char) : Bool :=
  c == (' ') || c == ('\t') || c == ('\n') || c == ('\r') || c == ('\x0b') || c == ('\x0c')

def pyStripList (cs : List Char) : List Char :=
  ((cs.dropWhile pyIsSpace).reverse.dropWhile pyIsSpace).reverse

/-- Python `s.strip()`. -/
def pyStrip (s : String) : String :=
  String.mk (pyStripList s.data)

/-- Python `s.lower()` (ASCII). -/
def pyLower (s : String) : String :=
  String.mk (s.data.map Char.toLower)

/-- Substring test on character lists. -/
def hasSub (sub : List Char) : List Char → Bool
  | [] => sub.isEmpty
  | c :: rest => sub.isPrefixOf (c :: rest) || hasSub sub rest

/-- Python `sub in s`. -/
def strHasSub (s sub : String) : Bool :=
  hasSub sub.data s.data

/-!
## Slot merge policy

`_should_overwrite_slot` (src/agents/agents.py lines 620-645), the per-slot
overwrite decision.  `tool_name` is a Python value (`None` by default), the
existing value is looked up first in the in-progress `results['slots']`, then
in the `current_slots` snapshot (which is only consulted when it is a dict).
-/

/-- `existing = results['slots'].get(slot_name) or (current_slots.get(slot_name)
if isinstance(current_slots, dict) else None)`. -/
def existingSlot (resultsSlots : Dict) (current_slots : Val) (slot_name : String) : Val :=
  pyOr ((dGet resultsSlots slot_name).getD vNull)
    (match current_slots with
     | .vObj cs => (dGet cs slot_name).getD vNull
     | _ => vNull)

/-- Embedding of `_should_overwrite_slot(slot_name, new_slot, tool_name)`. -/
def should_overwrite_slot (slot_name : String) (new_slot : Val) (tool_name : Val)
    (resultsSlots : Dict) (current_slots : Val) : Bool :=
  -- Always allow overwrite if explicitly set by Geocode for origin (user intent)
  if isStr tool_name ("Geocode") && slot_name == ("origin") then true
  -- Always allow overwrite if new_slot has '__user_provided' flag
  else if pyTruthy (valGetD new_slot ("__user_provided")) then true
  else
    let existing := existingSlot resultsSlots current_slots slot_name
    if !pyTruthy existing then true
    else
      let existing_source := valGetD existing ("__source")
      let new_source := valGetD new_slot ("__source")
      -- If existing is geolocate, don't overwrite with geocode
      if isStr existing_source ("geolocate") && isStr new_source ("geocode") then false
      else
        -- If existing lacks coords but new provides them, allow overwrite
        let existing_has := pyTruthy (valGetD existing ("lat")) && pyTruthy (valGetD existing ("lng"))
        let new_has := pyTruthy (valGetD new_slot ("lat")) && pyTruthy (valGetD new_slot ("lng"))
        if !existing_has && new_has then true
        -- Otherwise default to allowing overwrite
        else true

/-- The guarded slot merge of the execution loop (lines 1099-1105): each slot
returned by a tool is folded into `results['slots']` only when the policy
allows the overwrite. -/
def guardedSlotMerge (resultsSlots : Dict) (outSlots : Dict) (tool_name : Val)
    (current_slots : Val) : Dict :=
  outSlots.foldl
    (fun acc kv =>
      if should_overwrite_slot kv.1 kv.2 tool_name acc current_slots
      then dSet acc kv.1 kv.2
      else acc)
    resultsSlots

/-!
## Execution state

`ExecutionResult` accumulator (`results = {"context": {}, "slots": {}, "errors": [],
"tools_executed": []}`) and the blackboard (`WorldState` pydantic model, whose
`slots` field is a `Slots` pydantic object with four attributes).
-/

structure Results where
  context : Dict
  slots : Dict
  errors : List String
  tools_executed : List Val
  deriving Inhabited

/-- The `Slots` pydantic object: attribute access only. -/
structure SlotsObj where
  origin : Val
  destination : Val
  departureTime : Val
  modePrefs : Val

/-- The `WorldState` pydantic model: the attributes reachable by `getattr`. -/
structure WorldStateE where
  meta : Val
  user : Val
  query : Val
  slots : SlotsObj
  context : Val
  evidence : Val
  errors : Val
  memory : Val

/-- A Python object as traversed by the placeholder lookup: the `WorldState`
model, its `Slots` field, or a plain runtime value. -/
inductive PyObj where
  | ws : WorldStateE → PyObj
  | slotsO : SlotsObj → PyObj
  | v : Val → PyObj

def slotsAttr (s : SlotsObj) : String → Option Val
  | ("origin") => some s.origin
  | ("destination") => some s.destination
  | ("departureTime") => some s.departureTime
  | ("modePrefs") => some s.modePrefs
  | _ => none

def wsAttr (w : WorldStateE) : String → Option PyObj
  | ("meta") => some (.v w.meta)
  | ("user") => some (.v w.user)
  | ("query") => some (.v w.query)
  | ("slots") => some (.slotsO w.slots)
  | ("context") => some (.v w.context)
  | ("evidence") => some (.v w.evidence)
  | ("errors") => some (.v w.errors)
  | ("memory") => some (.v w.memory)
  | _ => none

/-- `hasattr`/`getattr` steps of the third lookup source. -/
def pyAttr : PyObj → String → Option PyObj
  | .ws w, n => wsAttr w n
  | .slotsO s, n => (slotsAttr s n).map .v
  | .v _, _ => none

/-- The value a traversal result stands for when the path ends on it. -/
def objToVal : PyObj → Option Val
  | .v x => some x
  | .slotsO s =>
      some (.vObj [(("origin"), s.origin), (("destination"), s.destination),
                   (("departureTime"), s.departureTime), (("modePrefs"), s.modePrefs)])
  | .ws _ => none

/-!
## Placeholder resolver

`substitute_placeholders` (lines 889-1000): `_lookup_path` over the three
ordered sources, the `\x7b\x7bpath\x7d\x7d` stringifying substitution, the
single-`$\x7bpath\x7d` native return, and the embedded-`$\x7bpath\x7d`
stringifying substitution.  The substitution scanners are fuel-indexed
(`fuel ≥ length` suffices) so they evaluate by kernel reduction.
-/

/-- One dot-separated component of a placeholder path: either a plain key or
`key[index]` one-level array access. -/
inductive PathPart where
  | plain : String → PathPart
  | indexed : String → String → PathPart

/-- Python `path.split('.')` on character lists. -/
def splitDotAux : List Char → List Char → List (List Char)
  | [], acc => [acc.reverse]
  | '.' :: rest, acc => acc.reverse :: splitDotAux rest []
  | c :: rest, acc => splitDotAux rest (c :: acc)

/-- `'[' in part and part.endswith(']')` splits `part` into key and the
index text (`part.split('[', 1)`, then `rstrip(']')`). -/
def parsePart (part : List Char) : PathPart :=
  if part.contains ('[') && (match part.getLast? with | some (']') => true | _ => false) then
    let key := part.takeWhile (fun c => !(c == ('[')))
    let after := (part.dropWhile (fun c => !(c == ('[')))).drop 1
    let idxStr := (after.reverse.dropWhile (fun c => c == (']'))).reverse
    .indexed (String.mk key) (String.mk idxStr)
  else .plain (String.mk part)

def pathParts (path : String) : List PathPart :=
  (splitDotAux path.data []).map parsePart

/-- `index_str.isdigit()` and `int(index_str)`. -/
def idxOf? (s : String) : Option Nat :=
  if s.data.isEmpty then none
  else if s.data.all Char.isDigit then some (unrep s.data) else none

/-- Walk a path through nested dicts/lists (lookup sources 1 and 2). -/
def walkVal : Val → List PathPart → Option Val
  | cur, [] => some cur
  | cur, .plain key :: rest =>
      match cur with
      | .vObj m => match dGet m key with
                   | some v2 => walkVal v2 rest
                   | none => none
      | _ => none
  | cur, .indexed key idxStr :: rest =>
      match cur with
      | .vObj m =>
          match dGet m key with
          | some (.vArr xs) =>
              match idxOf? idxStr with
              | some i => match xs.get? i with
                          | some e => walkVal e rest
                          | none => none
              | none => none
          | _ => none
      | _ => none

/-- Walk a path through the `WorldState` object (lookup source 3):
`getattr` first, then dict access. -/
def walkWS : PyObj → List PathPart → Option Val
  | cur, [] => objToVal cur
  | cur, .plain key :: rest =>
      match pyAttr cur key with
      | some nxt => walkWS nxt rest
      | none =>
          match cur with
          | .v (.vObj m) => match dGet m key with
                            | some v2 => walkWS (.v v2) rest
                            | none => none
          | _ => none
  | cur, .indexed key idxStr :: rest =>
      let cur2? : Option Val :=
        match pyAttr cur key with
        | some nxt => objToVal nxt
        | none => match cur with
                  | .v (.vObj m) => dGet m key
                  | _ => none
      match cur2? with
      | some (.vArr xs) =>
          match idxOf? idxStr with
          | some i => match xs.get? i with
                      | some e => walkWS (.v e) rest
                      | none => none
          | none => none
      | _ => none

/-- `_lookup_path`: first hit across the three ordered sources; a successful
walk that yields `None` still ends the search. -/
def lookupPath (ws : WorldStateE) (current_slots : Dict) (r : Results) (path : String) : Option Val :=
  let parts := pathParts path
  match walkVal (.vObj r.slots) parts with
  | some v => some v
  | none =>
      match walkVal (.vObj current_slots) parts with
      | some v => some v
      | none => walkWS (.ws ws) parts

/-- The `found` value at a use site (`None` when every source misses). -/
def lookupFound (ws : WorldStateE) (current_slots : Dict) (r : Results) (path : String) : Val :=
  (lookupPath ws current_slots r path).getD .vNull

def isNull : Val → Bool
  | .vNull => true
  | _ => false

/-- A match of `\$\x7b([^\x7d]+)\x7d` anchored at the head of the text:
`$`, `\x7b`, a nonempty run of non-`\x7d` characters (the group), `\x7d`;
returns the group and the remaining text. -/
def dollarMatchAt : List Char → Option (List Char × List Char)
  | c :: c2 :: rest2 =>
      if c = ('$') ∧ c2 = ('{') then
        let inner := rest2.takeWhile (fun ch => !(ch == ('}')))
        let rem := rest2.dropWhile (fun ch => !(ch == ('}')))
        if inner.isEmpty then none
        else
          match rem with
          | r0 :: rem2 => if r0 = ('}') then some (inner, rem2) else none
          | [] => none
      else none
  | _ => none

/-- A match of `\x7b\x7b([^\x7d]+)\x7d\x7d` anchored at the head. -/
def braceMatchAt : List Char → Option (List Char × List Char)
  | c :: c2 :: rest2 =>
      if c = ('{') ∧ c2 = ('{') then
        let inner := rest2.takeWhile (fun ch => !(ch == ('}')))
        let rem := rest2.dropWhile (fun ch => !(ch == ('}')))
        if inner.isEmpty then none
        else
          match rem with
          | r0 :: r1 :: rem2 => if r0 = ('}') ∧ r1 = ('}') then some (inner, rem2) else none
          | _ => none
      else none
  | _ => none

/-- `re.sub(r'\$\x7b([^\x7d]+)\x7d', replacer2, value)`: the leftmost-match
scan; each matched `$\x7bpath\x7d` is replaced by `str(found)` when the
lookup hits, and left literal on a miss (fuel ≥ length suffices). -/
def subDollarAux (L : String → Val) : Nat → List Char → List Char
  | 0, cs => cs
  | _ + 1, [] => []
  | fuel + 1, c :: rest =>
      match dollarMatchAt (c :: rest) with
      | some (inner, rem2) =>
          (if isNull (L (pyStrip (String.mk inner))) then '$' :: '{' :: (inner ++ ['}'])
           else (pyStr (L (pyStrip (String.mk inner)))).data)
            ++ subDollarAux L fuel rem2
      | none => c :: subDollarAux L fuel rest

/-- `re.sub(r'\x7b\x7b([^\x7d]+)\x7d\x7d', replacer, value)`. -/
def subBraceAux (L : String → Val) : Nat → List Char → List Char
  | 0, cs => cs
  | _ + 1, [] => []
  | fuel + 1, c :: rest =>
      match braceMatchAt (c :: rest) with
      | some (inner, rem2) =>
          (if isNull (L (pyStrip (String.mk inner))) then '{' :: '{' :: (inner ++ ['}', '}'])
           else (pyStr (L (pyStrip (String.mk inner)))).data)
            ++ subBraceAux L fuel rem2
      | none => c :: subBraceAux L fuel rest

/-- `re.fullmatch(r'\$\x7b([^\x7d]+)\x7d', value.strip())`: the whole string
is a single placeholder; returns the raw group. -/
def fullDollarMatch (cs : List Char) : Option String :=
  match cs with
  | c :: c2 :: rest =>
      if c = ('$') ∧ c2 = ('{') then
        match rest.takeWhile (fun ch => !(ch == ('}'))), rest.dropWhile (fun ch => !(ch == ('}'))) with
        | [], _ => none
        | inner, ['}'] => some (String.mk inner)
        | _, _ => none
      else none
  | _ => none

/-- The (stripped) paths of the `$\x7bpath\x7d` placeholders the embedded
scan would look up, in scan order. -/
def dollarPaths : Nat → List Char → List String
  | 0, _ => []
  | _ + 1, [] => []
  | fuel + 1, c :: rest =>
      match dollarMatchAt (c :: rest) with
      | some (inner, rem2) => pyStrip (String.mk inner) :: dollarPaths fuel rem2
      | none => dollarPaths fuel rest

/-- The paths of the `\x7b\x7bpath\x7d\x7d` placeholders. -/
def bracePaths : Nat → List Char → List String
  | 0, _ => []
  | _ + 1, [] => []
  | fuel + 1, c :: rest =>
      match braceMatchAt (c :: rest) with
      | some (inner, rem2) => pyStrip (String.mk inner) :: bracePaths fuel rem2
      | none => bracePaths fuel rest

/-- Every placeholder path the resolver would look up for a string value,
following the same branch selection as `substitute_placeholders`. -/
def placeholderPaths (s : String) : List String :=
  if strHasSub s ("\x7b\x7b") && strHasSub s ("\x7d\x7d") then
    bracePaths (s.data.length + 1) s.data
  else
    match fullDollarMatch (pyStrip s).data with
    | some inner => [pyStrip inner]
    | none =>
        if strHasSub s ("$\x7b") && strHasSub s ("\x7d") then
          dollarPaths (s.data.length + 1) s.data
        else []

/-- Embedding of `substitute_placeholders(value, world_state, current_slots,
results)`. -/
def substitute_placeholders (value : Val) (ws : WorldStateE) (current_slots : Dict) (r : Results) : Val :=
  let L := lookupFound ws current_slots r
  match value with
  | .vStr s =>
      if strHasSub s ("\x7b\x7b") && strHasSub s ("\x7d\x7d") then
        .vStr (String.mk (subBraceAux L (s.data.length + 1) s.data))
      else
        match fullDollarMatch (pyStrip s).data with
        | some inner =>
            let found := L (pyStrip inner)
            if isNull found then .vStr s else found
        | none =>
            if strHasSub s ("$\x7b") && strHasSub s ("\x7d") then
              .vStr (String.mk (subDollarAux L (s.data.length + 1) s.data))
            else .vStr s
  | v => v

/-!
## Result merging and the execution loop

`_merge_tool_output` (lines 276-297), the guarded slot merge plus shared merge
of the main loop (lines 1097-1107), and the loop itself
(`_execute_plan_with_llm_reasoning`, lines 1082-1117).  `_execute_tool_step`
calls external tools, so the loop is parametrised by a dispatch oracle that
receives the substituted step, the lookahead step, and the mutable state, and
either returns a tool output or raises (`Except.error`); it may also have
mutated `results`/`current_slots` before the exception, as the Python callee
can.
-/

/-- `dict.update(other)`. -/
def dUpdate (d other : Dict) : Dict :=
  other.foldl (fun acc kv => dSet acc kv.1 kv.2) d

/-- Embedding of `_merge_tool_output(results, tool_name, out)`: slots and
context merged key-by-key, any other top-level key namespaced
`<tool_name>_<key>` into context.  A non-dict output is ignored, and a
non-dict `slots`/`context` entry is skipped by the internal `except`. -/
def merge_tool_output (r : Results) (tool_name : Val) (out : Val) : Results :=
  match out with
  | .vObj m =>
      let r1 := match dGet m ("slots") with
        | some (.vObj sl) => { r with slots := dUpdate r.slots sl }
        | _ => r
      let r2 := match dGet m ("context") with
        | some (.vObj cx) => { r1 with context := dUpdate r1.context cx }
        | _ => r1
      { r2 with context :=
          (m.foldl
            (fun d kv =>
              if kv.1 == ("slots") || kv.1 == ("context") then d
              else dSet d (pyStr tool_name ++ ("_") ++ kv.1) kv.2)
            r2.context) }
  | _ => r

/-- The namespaced `<tool>_<key>` context entries the merge helper writes for
the top-level keys other than `slots` and `context`. -/
def othersOf (tool_name : Val) (m : Dict) : Dict :=
  (m.filter (fun kv => !(kv.1 == ("slots") || kv.1 == ("context")))).map
    (fun kv => (pyStr tool_name ++ ("_") ++ kv.1, kv.2))

/-- The `slots` sub-dict a tool output contributes (`\x7b\x7d` when absent or
not a dict, in which case the merge loop is a no-op). -/
def slotsPart (m : Dict) : Dict :=
  match dGet m ("slots") with
  | some (.vObj sl) => sl
  | _ => []

/-- The `context` sub-dict a tool output contributes. -/
def ctxPart (m : Dict) : Dict :=
  match dGet m ("context") with
  | some (.vObj cx) => cx
  | _ => []

/-- The dispatch oracle standing for `_execute_tool_step`: substituted tool,
next tool, results, current slots ↦ (possibly mutated) results and slots plus
either a tool output (`None` allowed) or a raised exception message. -/
abbrev Dispatch :=
  Dict → Dict → Results → Dict → Results × Dict × Except String (Option Val)

/-- `{'name': tool.get('name'), 'args': {k: substitute_placeholders(v, ...)}}`. -/
def substTool (ws : WorldStateE) (cs : Dict) (r : Results) (t : Dict) : Dict :=
  let tool_args := match dGet t ("args") with
    | some (.vObj m) => m
    | _ => []
  [(("name"), (dGet t ("name")).getD .vNull),
   (("args"), .vObj (tool_args.map (fun kv => (kv.1, substitute_placeholders kv.2 ws cs r))))]

/-- `f"Error executing tool \x7btool.get('name')\x7d: \x7be\x7d"`. -/
def stepErrMsg (t : Dict) (e : String) : String :=
  ("Error executing tool ") ++ pyStr ((dGet t ("name")).getD .vNull) ++ (": ") ++ e

/-- One iteration of the main execution loop (lines 1082-1113): substitute,
dispatch, record the executed tool, merge slots under the overwrite policy,
run the shared merge helper, fold the merged slots into `current_slots`; on an
exception append the formatted message to `errors` and continue.  A step with
no `'name'` key raises `KeyError('name')` at the logging line, which the same
handler turns into an error entry. -/
def execStep (dispatch : Dispatch) (ws : WorldStateE) (t next : Dict) (r : Results) (cs : Dict) :
    Results × Dict :=
  let st := substTool ws cs r t
  match dispatch st next r cs with
  | (r1, cs1, .error e) => ({ r1 with errors := r1.errors ++ [stepErrMsg t e] }, cs1)
  | (r1, cs1, .ok res) =>
      match dGet t ("name") with
      | none => ({ r1 with errors := r1.errors ++ [("Error executing tool None: 'name'")] }, cs1)
      | some nm =>
          let r2 := { r1 with tools_executed := r1.tools_executed ++ [nm] }
          let r3 := match res with
            | some (.vObj m) =>
                let rg := match dGet m ("slots") with
                  | some (.vObj sl) => { r2 with slots := guardedSlotMerge r2.slots sl nm (.vObj cs1) }
                  | _ => r2
                merge_tool_output rg nm (.vObj m)
            | _ => r2
          (r3, dUpdate cs1 r3.slots)

/-- `tools_plan[idx + 1] if idx + 1 < len(tools_plan) else \x7b\x7d`. -/
def headD : List Dict → Dict
  | [] => []
  | d :: _ => d

/-- The execution loop over the remaining steps. -/
def runPlanAux (dispatch : Dispatch) (ws : WorldStateE) : List Dict → Results → Dict → Results × Dict
  | [], r, cs => (r, cs)
  | t :: rest, r, cs =>
      let p := execStep dispatch ws t (headD rest) r cs
      runPlanAux dispatch ws rest p.1 p.2

/-- `_summarize_weather` (lines 299-318): collect `lastWeather_*` context
entries into `final_weather_summary`. -/
def summarize_weather (r : Results) : Results :=
  let weather_entries :=
    r.context.foldl
      (fun acc kv =>
        match kv.2 with
        | .vObj m =>
            if kv.1.startsWith ("lastWeather_") then
              dSet acc (kv.1.drop 12)
                (.vObj [(("temp"), dGetD m ("temp") .vNull), (("summary"), dGetD m ("summary") .vNull),
                        (("lat"), dGetD m ("lat") .vNull), (("lng"), dGetD m ("lng") .vNull)])
            else acc
        | _ => acc)
      []
  if weather_entries.isEmpty then r
  else { r with context := dSet r.context ("final_weather_summary") (.vObj weather_entries) }

/-- The full run: loop over all steps, then the weather summary post-pass. -/
def runPlan (dispatch : Dispatch) (ws : WorldStateE) (plan : List Dict) (r : Results) (cs : Dict) :
    Results :=
  summarize_weather (runPlanAux dispatch ws plan r cs).1

/-!
## Where-am-I plan normalization

`_is_where_am_i` (lines 613-617) and the patch at lines 1002-1012.
-/

/-- `t.get('name') == s`. -/
def isNamed (t : Dict) (s : String) : Bool :=
  isStr ((dGet t ("name")).getD .vNull) s

/-- Embedding of `_is_where_am_i(q)`. -/
def is_where_am_i (q : String) : Bool :=
  if q.data.isEmpty then false
  else
    let lq := pyStrip (pyLower q)
    strHasSub lq ("where am i") || lq.startsWith ("where am i") ||
      strHasSub lq ("what is my location") || strHasSub lq ("where am i now")

def geolocateStepD : Dict := [(("name"), .vStr ("Geolocate")), (("args"), .vObj [])]

def reverseGeocodeStepD : Dict := [(("name"), .vStr ("ReverseGeocode")), (("args"), .vObj [])]

/-- The where-am-I normalization (lines 1002-1012): unshift a Geolocate
(dropping other Geolocates), then insert a ReverseGeocode at position 1 only
when none is present anywhere in the plan. -/
def whereAmIPatch (query : String) (plan : List Dict) : List Dict :=
  if is_where_am_i query then
    let p1 := geolocateStepD :: plan.filter (fun t => !isNamed t ("Geolocate"))
    if p1.any (fun t => isNamed t ("ReverseGeocode")) then p1
    else
      match p1 with
      | a :: rest => a :: reverseGeocodeStepD :: rest
      | [] => [reverseGeocodeStepD]
  else plan

/-!
## Geocode target-slot decision

The slot-selection logic of the Geocode branch of `_execute_tool_step`
(lines 1202-1217): the value passed as `slot=` to `geocode_place`.
-/

def geocodeTargetSlot (tool_args : Dict) (next_tool : Val) (query : String)
    (current_slots : Dict) : Val :=
  let next_name := valGetD next_tool ("name")
  -- `if next_tool and next_tool.get('name','') == 'Weather': ... elif 'weather'
  -- in (query or '').lower(): ...` sets the flag exactly when either holds
  let is_weather_query :=
    pyTruthy next_tool && isStr next_name ("Weather") || strHasSub (pyLower query) ("weather")
  let slotArg := (dGet tool_args ("slot")).getD .vNull
  let d0 := pyOr slotArg (if is_weather_query then .vStr ("destination") else .vStr ("origin"))
  let d1 :=
    if !pyTruthy slotArg && pyTruthy next_tool &&
        (isStr next_name ("Weather") || isStr next_name ("Directions")) then
      let dest_slot := pyOr ((dGet current_slots ("destination")).getD .vNull) (.vObj [])
      if !(pyTruthy (valGetD dest_slot ("name")) || pyTruthy (valGetD dest_slot ("lat")) ||
           pyTruthy (valGetD dest_slot ("lng"))) then
        .vStr ("destination")
      else d0
    else d0
  if isStr slotArg ("origin") && pyTruthy next_tool &&
      (isStr next_name ("Weather") || isStr next_name ("Directions")) then
    .vStr ("destination")
  else d1

/-!
## Weather context-key disambiguation

Lines 1279-1287 of the Weather branch: the `lastWeather` entry is re-keyed
`lastWeather_<label-or-slot-or-coords>` with a numeric suffix chosen by a
while loop so that it misses every key of the accumulated context.  The
`f'\x7blat\x7d_\x7blng\x7d'` coordinate label is passed in as a string.
-/

def weatherKeyBase (label slot : Val) (latlng : String) : String :=
  ("lastWeather_") ++ pyStr (pyOr label (pyOr slot (.vStr latlng)))

/-- The `while key in results.get('context', \x7b\x7d)` loop; the fuel
`|context| + 1` is enough to reach a free candidate. -/
def weatherFreshKey : Nat → List String → String → String → Nat → String
  | 0, _, key, _, _ => key
  | fuel + 1, ks, key, base, i =>
      if key ∈ ks then weatherFreshKey fuel ks (base ++ ("_") ++ pyNatRepr i) base (i + 1)
      else key

def weatherKey (ctx : Dict) (base : String) : String :=
  weatherFreshKey (ctx.length + 1) (dKeys ctx) base base 1

/-- The candidate key sequence tried by the while loop: `base`, `base_1`,
`base_2`, ... -/
def candK (base : String) (j : Nat) : String :=
  if j = 0 then base else base ++ ("_") ++ pyNatRepr j

/-- `result['context'][key] = result['context'].pop('lastWeather')` with the
disambiguated key. -/
def weatherFinalize (resultsCtx resCtx : Dict) (label slot : Val) (latlng : String) : Dict :=
  match dGet resCtx ("lastWeather") with
  | some w => dSet (dRemove resCtx ("lastWeather")) (weatherKey resultsCtx (weatherKeyBase label slot latlng)) w
  | none => resCtx

/-!
## Plan autopatcher

`autopatch_places` (lines 660-739) with `is_poi_intent` and the
origin/destination regex extraction.  The regex searches are embedded as
case-insensitive leftmost-match scanners over character lists; the two-group
patterns have a lazy first group (`[^\n\r]+?`), a literal middle, and a greedy
second group (`[^\n\r]+`), exactly the shapes
`from (...) to (...)`, `to (...) from (...)`, `get to (...) from (...)`,
`from (...)` and `to (...)` used by the source.
-/

def notNL (c : Char) : Bool :=
  !(c == ('\n')) && !(c == ('\r'))

/-- Case-insensitive literal match at the head (`re.IGNORECASE`, ASCII;
pattern literals are lowercase). -/
def ciStarts : List Char → List Char → Bool
  | [], _ => true
  | _ :: _, [] => false
  | p :: ps, c :: cs => p == c.toLower && ciStarts ps cs

/-- After the first literal: find the least split `g1 ++ mid ++ g2` with `g1`
nonempty lazy, `g2` nonempty greedy, both newline-free (backtracks past `mid`
occurrences that leave `g2` empty). -/
def findMid (mid : List Char) (acc : List Char) : List Char → Option (List Char × List Char)
  | [] => none
  | c :: rest =>
      if notNL c then
        let g1 := acc ++ [c]
        if ciStarts mid rest then
          let g2 := (rest.drop mid.length).takeWhile notNL
          if g2.isEmpty then findMid mid g1 rest else some (g1, g2)
        else findMid mid g1 rest
      else none

/-- `re.search` for `lit1 ([^\n\r]+?) mid ([^\n\r]+)` (leftmost match). -/
def search2 (lit1 mid : List Char) : List Char → Option (List Char × List Char)
  | [] => none
  | c :: rest =>
      (if ciStarts lit1 (c :: rest) then findMid mid [] ((c :: rest).drop lit1.length) else none)
        <|> search2 lit1 mid rest

/-- `re.search` for `lit ([^\n\r]+)` (leftmost match, greedy group). -/
def search1 (lit : List Char) : List Char → Option (List Char)
  | [] => none
  | c :: rest =>
      (if ciStarts lit (c :: rest) then
        let g := ((c :: rest).drop lit.length).takeWhile notNL
        if g.isEmpty then none else some g
       else none)
        <|> search1 lit rest

/-- The explicit origin/destination extraction of `autopatch_places`
(lines 681-705).  Falsy values are the empty string, as at the use sites. -/
def explicitOriginDest (utter : String) : String × String :=
  let u := utter.data
  let base : String × String :=
    match search2 (("from ").data) ((" to ").data) u with
    | some (a, b) => (pyStrip (String.mk a), pyStrip (String.mk b))
    | none =>
        match search2 (("to ").data) ((" from ").data) u with
        | some (a, b) => (pyStrip (String.mk b), pyStrip (String.mk a))
        | none =>
            match search2 (("get to ").data) ((" from ").data) u with
            | some (a, b) => (pyStrip (String.mk b), pyStrip (String.mk a))
            | none => ((""), (""))
  let o := if base.1 == ("") then
      (match search1 (("from ").data) u with
       | some g => pyStrip (String.mk g)
       | none => (""))
    else base.1
  let dnew := if base.2 == ("") then
      (match search1 (("to ").data) u with
       | some g => pyStrip (String.mk g)
       | none => (""))
    else base.2
  (o, dnew)

def NEAR_TERMS : List String :=
  [("near me"), ("nearby"), ("closest"), ("nearest"), ("around")]

def BRANDS : List String :=
  [("burger king"), ("dunkin"), ("dunkin donuts"), ("mcdonalds"), ("mcdonald"), ("starbucks"),
   ("pizza"), ("coffee"), ("cafe"), ("bagel"), ("donuts"), ("pharmacy"), ("7-eleven")]

/-- Embedding of `is_poi_intent(utter)`. -/
def is_poi_intent (utter : String) : Bool :=
  let u := pyLower utter
  NEAR_TERMS.any (fun t => strHasSub u t) || BRANDS.any (fun b => strHasSub u b)

def placesPH : String := ("$\x7bcontext.places.results[0].placeId\x7d")

/-- `name = step.get('name') or step.get('action') or ''`. -/
def nameOfStep (t : Dict) : Val :=
  pyOr ((dGet t ("name")).getD .vNull) (pyOr ((dGet t ("action")).getD .vNull) (.vStr ("")))

def mkGeocodeStep (addr : String) (slot : String) : Dict :=
  [(("name"), .vStr ("Geocode")),
   (("args"), .vObj [(("address"), .vStr addr), (("slot"), .vStr slot)])]

def mkPlacesStep (q : Val) : Dict :=
  [(("name"), .vStr ("PlacesSearch")),
   (("args"), .vObj [(("query"), q), (("rankBy"), .vStr ("distance")), (("maxResults"), .vNum 5)])]

/-- `hasPS = any(step.get('name') == 'PlacesSearch' for step in plan)`,
computed once over the input plan. -/
def hasPlacesSearchIn (plan : List Dict) : Bool :=
  plan.any (fun s => isStr ((dGet s ("name")).getD .vNull) ("PlacesSearch"))

/-- The Geocode steps inserted before a Directions step when the utterance
carries an explicit origin and/or destination phrase. -/
def geoInsOf (eo ed : String) : List Dict :=
  (if !(eo == ("")) then [mkGeocodeStep eo ("origin")] else []) ++
  (if !(ed == ("")) then [mkGeocodeStep ed ("destination")] else [])

/-- The per-step body of the `autopatch_places` rewrite loop: the list of
steps emitted for one input step (inserted Geocodes, an inserted PlacesSearch,
and the step itself, possibly with rewritten args). -/
def patchStep (hasPS poi : Bool) (eo ed : String) (utter : String) (step : Dict) : List Dict :=
  let step0 := if (dGet step ("args")).isSome then step else dSet step ("args") (.vObj [])
  let args := match dGet step0 ("args") with
    | some (.vObj m) => m
    | _ => []
  if isStr (nameOfStep step0) ("Directions") then
    let geoIns := geoInsOf eo ed
    let has_dest := dHasKey args ("destination") || dHasKey args ("destinationPlaceId") ||
      dHasKey args ("destinationLatLng")
    if dHasKey args ("query") then
      let q := (dGet args ("query")).getD .vNull
      let args1 := dRemove args ("query")
      let psIns := if !hasPS then [mkPlacesStep q] else []
      let args2 := dRemove (dSet args1 ("destinationPlaceId") (.vStr placesPH)) ("destination")
      geoIns ++ psIns ++ [dSet step0 ("args") (.vObj args2)]
    else if !has_dest && poi then
      let psIns := if !hasPS then [mkPlacesStep (.vStr utter)] else []
      let args2 := dRemove (dSet args ("destinationPlaceId") (.vStr placesPH)) ("destination")
      geoIns ++ psIns ++ [dSet step0 ("args") (.vObj args2)]
    else geoIns ++ [step0]
  else [step0]

/-- The utterance extracted from `world_state.query` (string `raw` values;
a non-string `raw` aborts the whole patch pass in the caller's `except`). -/
def utterOf (ws : WorldStateE) : String :=
  match ws.query with
  | .vObj m => match dGet m ("raw") with
               | some (.vStr s) => s
               | _ => ("")
  | .vStr s => s
  | _ => ("")

/-- Embedding of `autopatch_places(plan, world_state)`. -/
def autopatch_places (plan : List Dict) (ws : WorldStateE) : List Dict :=
  let utter := utterOf ws
  let poi := is_poi_intent utter
  let hasPS := hasPlacesSearchIn plan
  let eoEd := explicitOriginDest utter
  plan.flatMap (patchStep hasPS poi eoEd.1 eoEd.2 utter)

/-!
## `deepMerge` (src/utils/state.py lines 2-19)
-/

/-- Embedding of `deepMerge(base, patch)`: keys with dict values on both
sides merge recursively, every other patch key overwrites or is added. -/
def deepMerge (base patch : Dict) : Dict :=
  match patch with
  | [] => base
  | (k, .vObj pv) :: rest =>
      (match dGet base k with
       | some (.vObj bv) => deepMerge (dSet base k (.vObj (deepMerge bv pv))) rest
       | _ => deepMerge (dSet base k (.vObj pv)) rest)
  | (k, v) :: rest => deepMerge (dSet base k v) rest
termination_by sizeOf patch
decreasing_by
  · simp only [List.cons.sizeOf_spec, Prod.mk.sizeOf_spec, Val.vObj.sizeOf_spec]
    omega
  · simp only [List.cons.sizeOf_spec, Prod.mk.sizeOf_spec, Val.vObj.sizeOf_spec]
    omega
  · simp only [List.cons.sizeOf_spec, Prod.mk.sizeOf_spec, Val.vObj.sizeOf_spec]
    omega
  · simp only [List.cons.sizeOf_spec]
    omega

/-- Follow a chain of keys through nested dicts. -/
def navDicts (d : Dict) : List String → Option Dict
  | [] => some d
  | k :: rest =>
      match dGet d k with
      | some (.vObj d2) => navDicts d2 rest
      | _ => none

/-- The dicts along a key chain have pairwise-distinct keys (true of every
Python dict); hypothesis for the recursive-merge characterisation. -/
def navWfB (d : Dict) : List String → Bool
  | [] => decide ((dKeys d).Nodup)
  | k :: rest =>
      decide ((dKeys d).Nodup) &&
        (match dGet d k with
         | some (.vObj d2) => navWfB d2 rest
         | _ => true)

/-!
## Concrete fixtures used by witnesses
-/

/-- An origin slot with `lat=40.71` (as the placeholder-typing scenario). -/
def originEx : Val :=
  .vObj [(("name"), .vNull), (("lat"), .vNum (mkRat 4071 100)), (("lng"), .vNum (mkRat (-74) 1))]

def slotsEx : SlotsObj :=
  ⟨originEx, .vObj [(("name"), .vNull), (("lat"), .vNull), (("lng"), .vNull)], .vNull, .vArr []⟩

def wsEx : WorldStateE :=
  ⟨.vObj [], .vObj [], .vObj [(("raw"), .vStr ("test"))], slotsEx, .vObj [], .vObj [], .vArr [], .vObj []⟩

/-- `current_slots = world_state.slots.model_dump()`. -/
def csEx : Dict :=
  [(("origin"), originEx),
   (("destination"), .vObj [(("name"), .vNull), (("lat"), .vNull), (("lng"), .vNull)]),
   (("departureTime"), .vNull), (("modePrefs"), .vArr [])]

def rEmpty : Results := ⟨[], [], [], []⟩

/-- Blackboard for the "nearest Burger King" scenario. -/
def wsB : WorldStateE :=
  ⟨.vObj [], .vObj [], .vObj [(("raw"), .vStr ("nearest Burger King"))],
   ⟨.vObj [], .vObj [], .vNull, .vArr []⟩, .vObj [], .vObj [], .vArr [], .vObj []⟩

def dirStepB : Dict :=
  [(("name"), .vStr ("Directions")),
   (("args"), .vObj [(("query"), .vStr ("nearest Burger King"))])]

def wStepT : Dict := [(("name"), .vStr ("Weather")), (("args"), .vObj [])]

/-- A dispatch oracle for the loop theorems: raises on a step named `Boom`,
otherwise returns a small context payload; never touches the state. -/
def boomDispatch : Dispatch := fun st _next r cs =>
  (r, cs,
   if isNamed st ("Boom") then .error ("kaboom")
   else .ok (some (.vObj [(("context"), .vObj [(("ok"), .vBool true)])])))

def boomStep : Dict := [(("name"), .vStr ("Boom")), (("args"), .vObj [])]

def okStep : Dict := [(("name"), .vStr ("Ok")), (("args"), .vObj [])]

/-- Well-formedness of a tool output for the merge-idempotence theorem: the
output dict and its `slots`/`context` sub-dicts have pairwise-distinct keys
(every Python dict does), and the namespaced `<tool>_<key>` context keys do
not collide with explicit context keys. -/
def mergeWf (tool : Val) (m : Dict) : Bool :=
  decide ((dKeys m).Nodup) &&
  (match dGet m ("slots") with
   | some (.vObj sl) => decide ((dKeys sl).Nodup)
   | _ => true) &&
  (match dGet m ("context") with
   | some (.vObj cx) =>
       decide ((dKeys cx).Nodup) &&
       m.all (fun kv =>
         (kv.1 == ("slots") || kv.1 == ("context")) ||
         decide ((pyStr tool ++ ("_") ++ kv.1) ∉ dKeys cx))
   | _ => true)

/-- Concrete nested base dict for the deep-merge witness. -/
def baseC10 : Dict :=
  [(("a"), .vObj [(("x"), .vNum 1)]), (("b"), .vNum 2)]

/-- Concrete nested patch dict for the deep-merge witness. -/
def patchC10 : Dict :=
  [(("a"), .vObj [(("y"), .vNum 3)]), (("c"), .vNum 4)]

/-!
# Theorems
-/

section DictLemmas

theorem dGet_dSet (d : Dict) (k : String) (v : Val) : dGet (dSet d k v) k = some v := by
  induction d with
  | nil => simp [dSet, dGet]
  | cons p rest ih =>
      rcases p with ⟨k1, v1⟩
      by_cases h : k1 = k <;> simp [dSet, dGet, h, ih]

theorem dGet_dSet_ne (d : Dict) (k k' : String) (v : Val) (h : k' ≠ k) :
    dGet (dSet d k v) k' = dGet d k' := by
  have hk : ¬ k = k' := fun hh => h hh.symm
  induction d with
  | nil => simp [dSet, dGet, hk]
  | cons p rest ih =>
      rcases p with ⟨k1, v1⟩
      by_cases h1 : k1 = k
      · subst h1
        simp [dSet, dGet, hk]
      · simp [dSet, dGet, h1, ih]

theorem dSet_noop (d : Dict) (k : String) (v : Val) (h : dGet d k = some v) :
    dSet d k v = d := by
  induction d with
  | nil => simp [dGet] at h
  | cons p rest ih =>
      rcases p with ⟨k1, v1⟩
      by_cases h1 : k1 = k
      · subst h1
        simp [dGet] at h
        simp [dSet, h]
      · simp [dGet, h1] at h
        simp [dSet, h1, ih h]

theorem dKeys_dSet_mem (d : Dict) (k k' : String) (v : Val) (h : k' ∈ dKeys d) :
    k' ∈ dKeys (dSet d k v) := by
  induction d with
  | nil => simp [dKeys] at h
  | cons p rest ih =>
      rcases p with ⟨k1, v1⟩
      by_cases h1 : k1 = k
      · subst h1
        simp only [dSet, if_pos rfl]
        simpa only [dKeys, List.map_cons] using h
      · simp only [dSet, if_neg h1]
        simp only [dKeys, List.map_cons, List.mem_cons] at h ⊢
        rcases h with h | h
        · exact Or.inl h
        · exact Or.inr (ih h)

theorem dUpdate_nil (d : Dict) : dUpdate d [] = d := rfl

theorem dUpdate_cons (d : Dict) (kv : String × Val) (l : Dict) :
    dUpdate d (kv :: l) = dUpdate (dSet d kv.1 kv.2) l := rfl

theorem dUpdate_noop (d : Dict) (l : Dict) (h : ∀ kv ∈ l, dGet d kv.1 = some kv.2) :
    dUpdate d l = d := by
  induction l generalizing d with
  | nil => rfl
  | cons kv rest ih =>
      rw [dUpdate_cons, dSet_noop d kv.1 kv.2 (h kv (by simp))]
      exact ih d (fun p hp => h p (by simp [hp]))

theorem dGet_dUpdate_not_mem (d : Dict) (l : Dict) (k : String)
    (h : k ∉ l.map (fun p => p.1)) : dGet (dUpdate d l) k = dGet d k := by
  induction l generalizing d with
  | nil => rfl
  | cons kv rest ih =>
      simp only [List.map_cons, List.mem_cons] at h
      push_neg at h
      rw [dUpdate_cons, ih _ h.2, dGet_dSet_ne _ _ _ _ h.1]

theorem dGet_dUpdate_of_nodup (d : Dict) (l : Dict) (k : String) (v : Val)
    (hnd : (l.map (fun p => p.1)).Nodup) (hm : (k, v) ∈ l) :
    dGet (dUpdate d l) k = some v := by
  induction l generalizing d with
  | nil => simp at hm
  | cons kv rest ih =>
      simp only [List.map_cons, List.nodup_cons] at hnd
      rcases List.mem_cons.mp hm with h | h
      · subst h
        rw [dUpdate_cons, dGet_dUpdate_not_mem _ _ _ (by simpa using hnd.1), dGet_dSet]
      · exact dUpdate_cons _ _ _ ▸ ih _ hnd.2 h

end DictLemmas

section C1

theorem isStr_eq_true_iff (v : Val) (s : String) : isStr v s = true ↔ v = vStr s := by
  cases v <;> simp [isStr]

/-- C1 counterexample: a `geolocate`-provenance origin with coordinates is
overwritten by a `geocode`-provenance value when the producing action is
`Geocode` writing `origin` — the policy answers "overwrite", and the guarded
merge replaces the slot, so the rejection is not universal over producing
actions. -/
theorem C1_counterexample :
    should_overwrite_slot ("origin")
        (.vObj [(("__source"), vStr ("geocode"))])
        (vStr ("Geocode"))
        [(("origin"), .vObj [(("__source"), vStr ("geolocate")), (("lat"), .vNum 1), (("lng"), .vNum 1)])]
        (.vObj []) = true ∧
    guardedSlotMerge
        [(("origin"), .vObj [(("__source"), vStr ("geolocate")), (("lat"), .vNum 1), (("lng"), .vNum 1)])]
        [(("origin"), .vObj [(("__source"), vStr ("geocode"))])]
        (vStr ("Geocode")) (.vObj []) =
      [(("origin"), .vObj [(("__source"), vStr ("geocode"))])] :=
  ⟨rfl, rfl⟩

/-- C1 (amended): for every slot and producing action other than `Geocode`
writing `origin`, and a candidate not flagged `__user_provided`, an existing
slot value of provenance `geolocate` (with coordinates) is protected from a
candidate of provenance `geocode`: the policy rejects the overwrite and the
guarded slot merge keeps the existing value. -/
theorem C1_slot_protection (slot_name : String) (new_slot tool_name current_slots : Val)
    (resultsSlots : Dict)
    (h1 : ¬(isStr tool_name ("Geocode") = true ∧ slot_name = ("origin")))
    (h2 : pyTruthy (valGetD new_slot ("__user_provided")) = false)
    (h3 : isStr (valGetD (existingSlot resultsSlots current_slots slot_name) ("__source"))
            ("geolocate") = true)
    (h4 : pyTruthy (valGetD (existingSlot resultsSlots current_slots slot_name) ("lat")) = true)
    (h5 : pyTruthy (valGetD (existingSlot resultsSlots current_slots slot_name) ("lng")) = true)
    (h6 : isStr (valGetD new_slot ("__source")) ("geocode") = true) :
    should_overwrite_slot slot_name new_slot tool_name resultsSlots current_slots = false ∧
    guardedSlotMerge resultsSlots [(slot_name, new_slot)] tool_name current_slots = resultsSlots := by
  have hc1 : (isStr tool_name ("Geocode") && slot_name == ("origin")) = false := by
    by_cases hA : isStr tool_name ("Geocode") = true
    · have hB : ¬ slot_name = ("origin") := fun hs => h1 ⟨hA, hs⟩
      simp [hA, hB]
    · simp only [Bool.not_eq_true] at hA
      simp [hA]
  have hex : pyTruthy (existingSlot resultsSlots current_slots slot_name) = true := by
    rcases hE : existingSlot resultsSlots current_slots slot_name with _ | b | q | s | xs | m
    · rw [hE] at h3
      simp [valGetD, isStr] at h3
    · rw [hE] at h3
      simp [valGetD, isStr] at h3
    · rw [hE] at h3
      simp [valGetD, isStr] at h3
    · rw [hE] at h3
      simp [valGetD, isStr] at h3
    · rw [hE] at h3
      simp [valGetD, isStr] at h3
    · rw [hE] at h3
      cases m with
      | nil => simp [valGetD, dGetD, dGet, isStr] at h3
      | cons kv rest => simp [pyTruthy]
  have hmain :
      should_overwrite_slot slot_name new_slot tool_name resultsSlots current_slots = false := by
    simp only [should_overwrite_slot, hc1, h2, hex, h3, h6]
    simp
  refine ⟨hmain, ?_⟩
  simp [guardedSlotMerge, hmain]

/-- Witness for `C1_slot_protection` at a concrete non-`Geocode` action and
the `destination` slot. -/
theorem C1_slot_protection_witness :
    (¬(isStr (vStr ("Weather")) ("Geocode") = true ∧ ("destination" : String) = ("origin"))) ∧
    should_overwrite_slot ("destination")
        (.vObj [(("__source"), vStr ("geocode")), (("lat"), .vNum 1), (("lng"), .vNum 1)])
        (vStr ("Weather"))
        [(("destination"), .vObj [(("__source"), vStr ("geolocate")), (("lat"), .vNum 2), (("lng"), .vNum 3)])]
        (.vObj []) = false := by
  refine ⟨by decide, ?_⟩
  exact (C1_slot_protection ("destination")
    (.vObj [(("__source"), vStr ("geocode")), (("lat"), .vNum 1), (("lng"), .vNum 1)])
    (vStr ("Weather")) (.vObj [])
    [(("destination"), .vObj [(("__source"), vStr ("geolocate")), (("lat"), .vNum 2), (("lng"), .vNum 3)])]
    (by decide) (by decide) (by decide) (by decide) (by decide) (by decide)).1

end C1

section C4

theorem pyOr_pos (a b : Val) (h : pyTruthy a = true) : pyOr a b = a := by
  simp [pyOr, h]

theorem pyOr_neg (a b : Val) (h : pyTruthy a = false) : pyOr a b = b := by
  simp [pyOr, h]

theorem pyTruthy_false_not_isStr (v : Val) (s : String) (h : pyTruthy v = false)
    (hs : s ≠ ("")) : isStr v s = false := by
  cases hI : isStr v s
  · rfl
  · rw [isStr_eq_true_iff] at hI
    subst hI
    simp [pyTruthy] at h
    exact absurd h hs

/-- C4 counterexample: a Geocode step with the explicit argument
`slot: origin` followed by a Weather step writes `destination`, not `origin`
— the explicit `slot` argument does not always win. -/
theorem C4_counterexample :
    geocodeTargetSlot [(("slot"), .vStr ("origin"))] (.vObj [(("name"), .vStr ("Weather"))])
        ("") [] = .vStr ("destination") ∧
    Val.vStr ("destination") ≠ .vStr ("origin") := by
  refine ⟨rfl, ?_⟩
  intro h
  injection h with h2
  exact absurd h2 (by decide)

/-- C4 (amended): the Geocode target-slot decision.  An explicit non-`origin`
slot argument wins; an explicit `origin` is overridden to `destination` when
the next step is Weather or Directions and kept otherwise; with no (truthy)
slot argument, a weather query (next step Weather, or "weather" in the
utterance) targets `destination`, a following Weather/Directions step with an
empty destination slot targets `destination`, and otherwise the target
defaults to `origin`. -/
theorem C4_geocode_target_slot :
    (∀ (args : Dict) (next : Val) (q : String) (cs : Dict) (s : String),
      dGet args ("slot") = some (.vStr s) → s ≠ ("") → s ≠ ("origin") →
      geocodeTargetSlot args next q cs = .vStr s) ∧
    (∀ (args : Dict) (next : Val) (q : String) (cs : Dict),
      dGet args ("slot") = some (.vStr ("origin")) → pyTruthy next = true →
      (isStr (valGetD next ("name")) ("Weather") = true ∨
       isStr (valGetD next ("name")) ("Directions") = true) →
      geocodeTargetSlot args next q cs = .vStr ("destination")) ∧
    (∀ (args : Dict) (next : Val) (q : String) (cs : Dict),
      dGet args ("slot") = some (.vStr ("origin")) →
      (pyTruthy next = false ∨
       (isStr (valGetD next ("name")) ("Weather") = false ∧
        isStr (valGetD next ("name")) ("Directions") = false)) →
      geocodeTargetSlot args next q cs = .vStr ("origin")) ∧
    (∀ (args : Dict) (next : Val) (q : String) (cs : Dict),
      pyTruthy ((dGet args ("slot")).getD .vNull) = false →
      (pyTruthy next && isStr (valGetD next ("name")) ("Weather") ||
        strHasSub (pyLower q) ("weather")) = true →
      geocodeTargetSlot args next q cs = .vStr ("destination")) ∧
    (∀ (args : Dict) (next : Val) (q : String) (cs : Dict),
      pyTruthy ((dGet args ("slot")).getD .vNull) = false →
      (pyTruthy next && isStr (valGetD next ("name")) ("Weather") ||
        strHasSub (pyLower q) ("weather")) = false →
      pyTruthy next = true →
      (isStr (valGetD next ("name")) ("Weather") = true ∨
       isStr (valGetD next ("name")) ("Directions") = true) →
      pyTruthy (valGetD (pyOr ((dGet cs ("destination")).getD .vNull) (.vObj [])) ("name")) = false →
      pyTruthy (valGetD (pyOr ((dGet cs ("destination")).getD .vNull) (.vObj [])) ("lat")) = false →
      pyTruthy (valGetD (pyOr ((dGet cs ("destination")).getD .vNull) (.vObj [])) ("lng")) = false →
      geocodeTargetSlot args next q cs = .vStr ("destination")) ∧
    (∀ (args : Dict) (next : Val) (q : String) (cs : Dict),
      pyTruthy ((dGet args ("slot")).getD .vNull) = false →
      (pyTruthy next && isStr (valGetD next ("name")) ("Weather") ||
        strHasSub (pyLower q) ("weather")) = false →
      (pyTruthy next = false ∨
       (isStr (valGetD next ("name")) ("Weather") = false ∧
        isStr (valGetD next ("name")) ("Directions") = false) ∨
       (pyTruthy (valGetD (pyOr ((dGet cs ("destination")).getD .vNull) (.vObj [])) ("name")) ||
        pyTruthy (valGetD (pyOr ((dGet cs ("destination")).getD .vNull) (.vObj [])) ("lat")) ||
        pyTruthy (valGetD (pyOr ((dGet cs ("destination")).getD .vNull) (.vObj [])) ("lng"))) = true) →
      geocodeTargetSlot args next q cs = .vStr ("origin")) := by
  have t1 : pyTruthy (Val.vStr ("origin")) = true := by decide
  have t2 : isStr (Val.vStr ("origin")) ("origin") = true := by decide
  refine ⟨?_, ?_, ?_, ?_, ?_, ?_⟩
  · intro args next q cs s hs hs0 hsor
    have ht : pyTruthy (Val.vStr s) = true := by simp [pyTruthy, hs0]
    have hi : isStr (Val.vStr s) ("origin") = false := by simp [isStr, hsor]
    simp [geocodeTargetSlot, hs, pyOr_pos _ _ ht, ht, hi]
  · intro args next q cs hs hnt hnn
    rcases hnn with h | h
    · simp [geocodeTargetSlot, hs, pyOr_pos _ _ t1, t1, t2, hnt, h]
    · simp [geocodeTargetSlot, hs, pyOr_pos _ _ t1, t1, t2, hnt, h]
  · intro args next q cs hs h
    rcases h with h | ⟨h1, h2⟩
    · simp [geocodeTargetSlot, hs, pyOr_pos _ _ t1, t1, t2, h]
    · simp [geocodeTargetSlot, hs, pyOr_pos _ _ t1, t1, t2, h1, h2]
  · intro args next q cs hsf hw
    have hso : isStr ((dGet args ("slot")).getD .vNull) ("origin") = false :=
      pyTruthy_false_not_isStr _ _ hsf (by decide)
    simp [geocodeTargetSlot, pyOr_neg _ _ hsf, hsf, hw, hso]
  · intro args next q cs hsf hw hnt hnn he1 he2 he3
    have hso : isStr ((dGet args ("slot")).getD .vNull) ("origin") = false :=
      pyTruthy_false_not_isStr _ _ hsf (by decide)
    rcases hnn with h | h
    · simp [geocodeTargetSlot, pyOr_neg _ _ hsf, hsf, hw, hso, hnt, h, he1, he2, he3]
    · simp [geocodeTargetSlot, pyOr_neg _ _ hsf, hsf, hw, hso, hnt, h, he1, he2, he3]
  · intro args next q cs hsf hw h
    have hso : isStr ((dGet args ("slot")).getD .vNull) ("origin") = false :=
      pyTruthy_false_not_isStr _ _ hsf (by decide)
    have hw2 : strHasSub (pyLower q) ("weather") = false := by
      cases hq : strHasSub (pyLower q) ("weather")
      · rfl
      · rw [hq] at hw
        simp at hw
    have hw1 : (pyTruthy next && isStr (valGetD next ("name")) ("Weather")) = false := by
      cases hp : (pyTruthy next && isStr (valGetD next ("name")) ("Weather"))
      · rfl
      · rw [hp] at hw
        simp at hw
    rcases h with h | ⟨h1, h2⟩ | h
    · simp [geocodeTargetSlot, pyOr_neg _ _ hsf, hsf, hw1, hw2, hso, h]
    · simp [geocodeTargetSlot, pyOr_neg _ _ hsf, hsf, hw1, hw2, hso, h1, h2]
    · simp only [geocodeTargetSlot, pyOr_neg _ _ hsf, hsf, h, hso, hw1, hw2]
      simp [h, Bool.and_eq_false_iff] at hw1 ⊢

/-- Witness for `C4_geocode_target_slot`: explicit `slot: destination` wins
over a following Weather step. -/
theorem C4_geocode_target_slot_witness :
    dGet [(("slot"), Val.vStr ("destination"))] ("slot") = some (.vStr ("destination")) ∧
    geocodeTargetSlot [(("slot"), .vStr ("destination"))]
        (.vObj [(("name"), .vStr ("Weather"))]) ("") [] = .vStr ("destination") :=
  ⟨rfl, C4_geocode_target_slot.1 [(("slot"), .vStr ("destination"))]
    (.vObj [(("name"), .vStr ("Weather"))]) ("") [] ("destination") rfl
    (by decide) (by decide)⟩

end C4

section C6

/-- C6 counterexample: with the query "where am i" and the planner plan
`[Weather, ReverseGeocode]`, the patched plan is
`[Geolocate, Weather, ReverseGeocode]` — the existing ReverseGeocode is left
in place, so the plan does not begin `[Geolocate, ReverseGeocode]`. -/
theorem C6_counterexample :
    whereAmIPatch ("where am i") [wStepT, reverseGeocodeStepD] =
      [geolocateStepD, wStepT, reverseGeocodeStepD] ∧
    (whereAmIPatch ("where am i") [wStepT, reverseGeocodeStepD]).map
        (fun t => isNamed t ("ReverseGeocode")) = [false, false, true] :=
  ⟨rfl, rfl⟩

/-- C6 (amended): for a where-am-I utterance the patched plan always begins
with a Geolocate (duplicates removed elsewhere), and when the planner plan
contains no ReverseGeocode at all, a ReverseGeocode is inserted in second
position, so the patched plan begins `[Geolocate, ReverseGeocode]`; an
already-present ReverseGeocode is left where it was. -/
theorem C6_where_am_i (q : String) (plan : List Dict)
    (hq : is_where_am_i q = true) :
    (∃ rest, whereAmIPatch q plan = geolocateStepD :: rest) ∧
    ((plan.filter (fun t => !isNamed t ("Geolocate"))).any
        (fun t => isNamed t ("ReverseGeocode")) = false →
      (whereAmIPatch q plan).take 2 = [geolocateStepD, reverseGeocodeStepD]) := by
  have hg : isNamed geolocateStepD ("ReverseGeocode") = false := by decide
  constructor
  · simp only [whereAmIPatch, hq, if_true]
    cases hrev : (geolocateStepD :: plan.filter (fun t => !isNamed t ("Geolocate"))).any
        (fun t => isNamed t ("ReverseGeocode"))
    · simp only [hrev, Bool.false_eq_true, if_false]
      exact ⟨_, rfl⟩
    · simp only [hrev, if_true]
      exact ⟨_, rfl⟩
  · intro hno
    have hany : (geolocateStepD :: plan.filter (fun t => !isNamed t ("Geolocate"))).any
        (fun t => isNamed t ("ReverseGeocode")) = false := by
      simp [List.any_cons, hg, hno]
    simp [whereAmIPatch, hq, hany]

/-- Witness for `C6_where_am_i` at "where am i" and a one-step Weather plan. -/
theorem C6_where_am_i_witness :
    is_where_am_i ("where am i") = true ∧
    (whereAmIPatch ("where am i") [wStepT]).take 2 = [geolocateStepD, reverseGeocodeStepD] :=
  ⟨by decide, (C6_where_am_i ("where am i") [wStepT] (by decide)).2 (by decide)⟩

end C6

section C5

/-- C5: a Directions step carrying a free-text `query`, in a plan with no
PlacesSearch, is split by the autopatcher: a PlacesSearch step with that
query, `rankBy="distance"`, `maxResults=5` is inserted immediately before it
(after any explicit-origin/destination Geocode inserts), `query` and any
`destination` are removed from the Directions args, and
`destinationPlaceId` is set to the first-result placeholder; all other steps
are patched independently. -/
theorem C5_autopatch_split (ws : WorldStateE) (pre post : List Dict) (step : Dict)
    (argsm : Dict) (q : Val)
    (hname : dGet step ("name") = some (.vStr ("Directions")))
    (hargs : dGet step ("args") = some (.vObj argsm))
    (hq : dGet argsm ("query") = some q)
    (hnops : hasPlacesSearchIn (pre ++ step :: post) = false) :
    autopatch_places (pre ++ step :: post) ws =
      pre.flatMap (patchStep false (is_poi_intent (utterOf ws))
          (explicitOriginDest (utterOf ws)).1 (explicitOriginDest (utterOf ws)).2 (utterOf ws)) ++
      geoInsOf (explicitOriginDest (utterOf ws)).1 (explicitOriginDest (utterOf ws)).2 ++
      [mkPlacesStep q] ++
      [dSet step ("args")
        (.vObj (dRemove (dSet (dRemove argsm ("query")) ("destinationPlaceId") (.vStr placesPH))
          ("destination")))] ++
      post.flatMap (patchStep false (is_poi_intent (utterOf ws))
          (explicitOriginDest (utterOf ws)).1 (explicitOriginDest (utterOf ws)).2 (utterOf ws)) := by
  have hps : (dGet step ("args")).isSome = true := by rw [hargs]; rfl
  have hname2 : nameOfStep step = .vStr ("Directions") := by
    simp [nameOfStep, hname, pyOr_pos _ _ (by decide : pyTruthy (Val.vStr ("Directions")) = true)]
  have hkey : dHasKey argsm ("query") = true := by simp [dHasKey, hq]
  have hstep : patchStep false (is_poi_intent (utterOf ws))
      (explicitOriginDest (utterOf ws)).1 (explicitOriginDest (utterOf ws)).2 (utterOf ws) step =
      geoInsOf (explicitOriginDest (utterOf ws)).1 (explicitOriginDest (utterOf ws)).2 ++
      [mkPlacesStep q] ++
      [dSet step ("args")
        (.vObj (dRemove (dSet (dRemove argsm ("query")) ("destinationPlaceId") (.vStr placesPH))
          ("destination")))] := by
    simp [patchStep, hps, hargs, hname2, hkey, hq,
      (by decide : isStr (Val.vStr ("Directions")) ("Directions") = true)]
  simp only [autopatch_places, hnops, List.flatMap_append, List.flatMap_cons, hstep]
  simp [List.append_assoc]

/-- Witness for `C5_autopatch_split`: Scenario B — utterance
"nearest Burger King", plan `[Directions(query="nearest Burger King")]`
patches to `[PlacesSearch(query=..., rankBy="distance", maxResults=5),
Directions(destinationPlaceId="$\x7bcontext.places.results[0].placeId\x7d")]`. -/
theorem C5_autopatch_split_witness :
    autopatch_places [dirStepB] wsB =
      [ [(("name"), Val.vStr ("PlacesSearch")),
         (("args"), Val.vObj [(("query"), .vStr ("nearest Burger King")),
                              (("rankBy"), .vStr ("distance")), (("maxResults"), .vNum 5)])],
        [(("name"), Val.vStr ("Directions")),
         (("args"), Val.vObj [(("destinationPlaceId"), .vStr placesPH)])] ] := by
  have h := C5_autopatch_split wsB [] [] dirStepB
    [(("query"), .vStr ("nearest Burger King"))] (.vStr ("nearest Burger King"))
    rfl rfl rfl (by decide)
  exact h

end C5

section C3

/-- C3: the execution loop never aborts early.  (i) For any plan split
`pre ++ rest`, the loop reaches `rest` in some accumulated state (every step
is visited).  (ii) When dispatching a step raises, the loop appends the
formatted message naming that step to `errors` and continues with exactly the
remaining steps in the state the failing dispatch left behind; the failing
step is not recorded in `tools_executed`.  (iii) The terminal
ExecutionResult (after the weather-summary post-pass) carries the loop's
accumulated `errors` and `tools_executed` unchanged. -/
theorem C3_loop_never_aborts (dispatch : Dispatch) (ws : WorldStateE) :
    (∀ (pre rest : List Dict) (r : Results) (cs : Dict),
      ∃ r1 cs1, runPlanAux dispatch ws (pre ++ rest) r cs = runPlanAux dispatch ws rest r1 cs1) ∧
    (∀ (t : Dict) (post : List Dict) (r : Results) (cs : Dict) (r1 : Results) (cs1 : Dict)
        (e : String),
      dispatch (substTool ws cs r t) (headD post) r cs = (r1, cs1, .error e) →
      runPlanAux dispatch ws (t :: post) r cs =
        runPlanAux dispatch ws post { r1 with errors := r1.errors ++ [stepErrMsg t e] } cs1) ∧
    (∀ r : Results, (summarize_weather r).errors = r.errors ∧
      (summarize_weather r).tools_executed = r.tools_executed) := by
  refine ⟨?_, ?_, ?_⟩
  · intro pre
    induction pre with
    | nil => intro rest r cs; exact ⟨r, cs, rfl⟩
    | cons t pre ih =>
        intro rest r cs
        rcases ih (rest) (execStep dispatch ws t (headD (pre ++ rest)) r cs).1
          (execStep dispatch ws t (headD (pre ++ rest)) r cs).2 with ⟨r1, cs1, h⟩
        refine ⟨r1, cs1, ?_⟩
        simpa [runPlanAux] using h
  · intro t post r cs r1 cs1 e hdisp
    simp [runPlanAux, execStep, hdisp]
  · intro r
    unfold summarize_weather
    cases hw : (r.context.foldl
      (fun acc kv =>
        match kv.2 with
        | .vObj m =>
            if kv.1.startsWith ("lastWeather_") then
              dSet acc (kv.1.drop 12)
                (.vObj [(("temp"), dGetD m ("temp") .vNull), (("summary"), dGetD m ("summary") .vNull),
                        (("lat"), dGetD m ("lat") .vNull), (("lng"), dGetD m ("lng") .vNull)])
            else acc
        | _ => acc)
      []).isEmpty
    · simp [hw]
    · simp [hw]

/-- Witness for `C3_loop_never_aborts`: with the concrete `boomDispatch`, a
failing `Boom` step appends its message and the loop continues with the
remaining step. -/
theorem C3_loop_never_aborts_witness :
    runPlanAux boomDispatch wsB (boomStep :: [okStep]) rEmpty [] =
      runPlanAux boomDispatch wsB [okStep]
        { rEmpty with errors := rEmpty.errors ++ [stepErrMsg boomStep ("kaboom")] } [] :=
  (C3_loop_never_aborts boomDispatch wsB).2.1 boomStep [okStep] rEmpty [] rEmpty [] ("kaboom") rfl

end C3

section C7Lemmas

theorem unrep_append (xs : List Char) (c : Char) :
    unrep (xs ++ [c]) = unrep xs * 10 + (c.toNat - 48) := by
  simp [unrep, List.foldl_append]

theorem digitChar_toNat_sub (d : Nat) (h : d < 10) : (Nat.digitChar d).toNat - 48 = d := by
  interval_cases d <;> rfl

theorem pyRepAux_unrep : ∀ fuel n, n ≤ fuel → unrep (pyRepAux fuel n) = n := by
  intro fuel
  induction fuel with
  | zero =>
      intro n h
      interval_cases n
      simp [pyRepAux, unrep]
  | succ f ih =>
      intro n h
      by_cases h0 : n = 0
      · simp [pyRepAux, h0, unrep]
      · rw [pyRepAux]
        simp only [h0, if_false]
        rw [unrep_append, ih (n / 10) (by omega), digitChar_toNat_sub _ (Nat.mod_lt _ (by omega))]
        omega

theorem pyRepAux_ne_nil (f n : Nat) (h : n ≠ 0) : pyRepAux (f + 1) n ≠ [] := by
  simp [pyRepAux, h]

theorem pyNatRepr_inj : Function.Injective pyNatRepr := by
  intro m n h
  by_cases hm : m = 0 <;> by_cases hn : n = 0
  · omega
  · exfalso
    rcases Nat.exists_eq_succ_of_ne_zero hn with ⟨n1, rfl⟩
    simp only [pyNatRepr, hm, hn, if_true, if_false] at h
    have hd : (['0'] : List Char) = pyRepAux (n1 + 1) (n1 + 1) := congrArg String.data h
    have h1 : unrep ['0'] = 0 := by simp [unrep]
    rw [hd, pyRepAux_unrep _ _ (le_refl _)] at h1
    omega
  · exfalso
    rcases Nat.exists_eq_succ_of_ne_zero hm with ⟨m1, rfl⟩
    simp only [pyNatRepr, hm, hn, if_true, if_false] at h
    have hd : pyRepAux (m1 + 1) (m1 + 1) = (['0'] : List Char) := congrArg String.data h
    have h1 : unrep ['0'] = 0 := by simp [unrep]
    rw [← hd, pyRepAux_unrep _ _ (le_refl _)] at h1
    omega
  · simp only [pyNatRepr, hm, hn, if_false] at h
    have hd : pyRepAux m m = pyRepAux n n := congrArg String.data h
    have := pyRepAux_unrep m m (le_refl _)
    rw [hd, pyRepAux_unrep n n (le_refl _)] at this
    omega

theorem pyNatRepr_ne_empty (n : Nat) : pyNatRepr n ≠ ("") := by
  by_cases h : n = 0
  · subst h
    decide
  · rcases Nat.exists_eq_succ_of_ne_zero h with ⟨n1, rfl⟩
    simp only [pyNatRepr, h, if_false]
    intro hc
    have := congrArg String.data hc
    simp only at this
    exact pyRepAux_ne_nil n1 (n1 + 1) (by omega) this

theorem string_append_cancel_left (a b c : String) (h : a ++ b = a ++ c) : b = c := by
  have hd := congrArg String.data h
  simp only [String.data_append] at hd
  have h2 := List.append_cancel_left hd
  cases b
  cases c
  exact congrArg String.mk h2

theorem candK_inj (base : String) : Function.Injective (candK base) := by
  intro i j h
  by_cases hi : i = 0 <;> by_cases hj : j = 0
  · omega
  · exfalso
    simp only [candK, hi, hj, if_true, if_false] at h
    have := congrArg String.length h
    simp only [String.length_append] at this
    have hne := pyNatRepr_ne_empty j
    have : (pyNatRepr j).length ≠ 0 := by
      intro hz
      exact hne (String.ext (List.length_eq_zero.mp hz))
    omega
  · exfalso
    simp only [candK, hi, hj, if_true, if_false] at h
    have := congrArg String.length h
    simp only [String.length_append] at this
    have hne := pyNatRepr_ne_empty i
    have : (pyNatRepr i).length ≠ 0 := by
      intro hz
      exact hne (String.ext (List.length_eq_zero.mp hz))
    omega
  · simp only [candK, hi, hj, if_false] at h
    rw [String.append_assoc, String.append_assoc] at h
    have h2 := string_append_cancel_left _ _ _ h
    have h3 := string_append_cancel_left _ _ _ h2
    exact pyNatRepr_inj h3

theorem exists_free_cand (ks : List String) (base : String) :
    ∃ j ≤ ks.length, candK base j ∉ ks := by
  by_contra hc
  push_neg at hc
  have hsub : ((Finset.range (ks.length + 1)).image (candK base)) ⊆ ks.toFinset := by
    intro x hx
    rcases Finset.mem_image.mp hx with ⟨j, hj, rfl⟩
    exact List.mem_toFinset.mpr (hc j (by simpa using Nat.lt_succ_iff.mp (Finset.mem_range.mp hj)))
  have hcard1 : ((Finset.range (ks.length + 1)).image (candK base)).card = ks.length + 1 := by
    rw [Finset.card_image_of_injective _ (candK_inj base), Finset.card_range]
  have hcard2 : ks.toFinset.card ≤ ks.length := ks.toFinset_card_le
  have := Finset.card_le_card hsub
  omega

theorem weatherFreshKey_not_mem (ks : List String) (base : String) :
    ∀ fuel j, (∃ k < fuel, candK base (j + k) ∉ ks) →
      weatherFreshKey fuel ks (candK base j) base (j + 1) ∉ ks := by
  intro fuel
  induction fuel with
  | zero =>
      intro j h
      rcases h with ⟨k, hk, _⟩
      omega
  | succ f ih =>
      intro j h
      by_cases hmem : candK base j ∈ ks
      · have hcand : candK base (j + 1) = base ++ ("_") ++ pyNatRepr (j + 1) := by
          simp [candK]
        rw [weatherFreshKey, if_pos hmem]
        rw [← hcand]
        apply ih (j + 1)
        rcases h with ⟨k, hk, hfree⟩
        rcases Nat.eq_zero_or_pos k with hk0 | hkpos
        · subst hk0
          simp at hfree
          exact absurd hmem hfree
        · exact ⟨k - 1, by omega, by have : j + 1 + (k - 1) = j + k := by omega
                                     rw [this]; exact hfree⟩
      · rw [weatherFreshKey, if_neg hmem]
        exact hmem

end C7Lemmas

section C7

/-- C7: Weather context-key disambiguation.  (i) The while-loop key chosen
for a `lastWeather` entry is never already a key of the accumulated context,
so earlier entries are never overwritten.  (ii) When the base key
`lastWeather_<label>` is free it is used as-is.  (iii) When it is taken and
`<base>_1` is free, the first numeric suffix is used.  (iv) Concretely, two
same-label (`origin`) Weather results stored in sequence land under
`lastWeather_origin` and `lastWeather_origin_1`. -/
theorem C7_weather_key_disambiguation :
    (∀ (ctx : Dict) (base : String), weatherKey ctx base ∉ dKeys ctx) ∧
    (∀ (ctx : Dict) (base : String), base ∉ dKeys ctx → weatherKey ctx base = base) ∧
    (∀ (ctx : Dict) (base : String), base ∈ dKeys ctx → (base ++ ("_1")) ∉ dKeys ctx →
      weatherKey ctx base = base ++ ("_1")) ∧
    (∀ w1 w2 : Val,
      weatherFinalize [] [(("lastWeather"), w1)] (.vStr ("origin")) .vNull ("0_0") =
        [(("lastWeather_origin"), w1)] ∧
      weatherFinalize [(("lastWeather_origin"), w1)] [(("lastWeather"), w2)]
          (.vStr ("origin")) .vNull ("0_0") =
        [(("lastWeather_origin_1"), w2)]) := by
  refine ⟨?_, ?_, ?_, ?_⟩
  · intro ctx base
    have h0 : candK base 0 = base := by simp [candK]
    have hfree := exists_free_cand (dKeys ctx) base
    rcases hfree with ⟨j, hj, hfr⟩
    have hlen : (dKeys ctx).length = ctx.length := by simp [dKeys]
    have := weatherFreshKey_not_mem (dKeys ctx) base (ctx.length + 1) 0
      ⟨j, by omega, by simpa using hfr⟩
    rw [h0] at this
    exact this
  · intro ctx base hb
    rcases ctx with _ | ⟨kv, rest⟩
    · simp [weatherKey, weatherFreshKey, hb]
    · simp only [weatherKey, List.length_cons]
      rw [weatherFreshKey, if_neg hb]
  · intro ctx base hb hb1
    rcases ctx with _ | ⟨kv, rest⟩
    · simp [dKeys] at hb
    · simp only [weatherKey, List.length_cons]
      rw [weatherFreshKey, if_pos hb]
      have h1 : base ++ ("_") ++ pyNatRepr 1 = base ++ ("_1") := by
        have : pyNatRepr 1 = ("1") := by decide
        rw [this, String.append_assoc]
        rfl
      rw [h1]
      rw [weatherFreshKey, if_neg hb1]
  · intro w1 w2
    constructor
    · rfl
    · rfl

/-- Witness for `C7_weather_key_disambiguation`: the base/`_1` clauses at a
concrete context. -/
theorem C7_weather_key_disambiguation_witness :
    (("lastWeather_origin" : String) ∈ dKeys [(("lastWeather_origin"), Val.vNum 1)]) ∧
    weatherKey [(("lastWeather_origin"), Val.vNum 1)] ("lastWeather_origin") =
      ("lastWeather_origin") ++ ("_1") :=
  ⟨by decide, C7_weather_key_disambiguation.2.2.1 [(("lastWeather_origin"), Val.vNum 1)]
    ("lastWeather_origin") (by decide) (by decide)⟩

end C7

section C9

theorem others_fold (tool : Val) (m : Dict) : ∀ c : Dict,
    (m.foldl
      (fun d kv =>
        if kv.1 == ("slots") || kv.1 == ("context") then d
        else dSet d (pyStr tool ++ ("_") ++ kv.1) kv.2)
      c) = dUpdate c (othersOf tool m) := by
  induction m with
  | nil => intro c; rfl
  | cons kv rest ih =>
      intro c
      by_cases hk : (kv.1 == ("slots") || kv.1 == ("context")) = true
      · have hk2 : kv.1 = ("slots") ∨ kv.1 = ("context") := by simpa using hk
        have ho : othersOf tool (kv :: rest) = othersOf tool rest := by
          rcases hk2 with h | h <;> simp [othersOf, List.filter_cons, h]
        rw [ho, List.foldl_cons, if_pos hk]
        exact ih c
      · simp only [Bool.not_eq_true] at hk
        have hk2 : ¬ kv.1 = ("slots") ∧ ¬ kv.1 = ("context") := by simpa using hk
        have ho : othersOf tool (kv :: rest) =
            (pyStr tool ++ ("_") ++ kv.1, kv.2) :: othersOf tool rest := by
          simp [othersOf, List.filter_cons, hk2.1, hk2.2]
        rw [ho, List.foldl_cons, if_neg (by simp [hk]), dUpdate_cons]
        exact ih _

theorem nodup_others_keys (tool : Val) (m : Dict) (h : (dKeys m).Nodup) :
    (dKeys (othersOf tool m)).Nodup := by
  have hsub : (m.filter (fun kv => !(kv.1 == ("slots") || kv.1 == ("context")))).Sublist m :=
    List.filter_sublist _
  have hnd : (List.map (fun p : String × Val => p.1)
      (m.filter (fun kv => !(kv.1 == ("slots") || kv.1 == ("context"))))).Nodup :=
    List.Nodup.sublist (hsub.map _) (by simpa [dKeys] using h)
  have hinj : Function.Injective (fun k : String => pyStr tool ++ ("_") ++ k) := by
    intro a b hab
    exact string_append_cancel_left _ _ _ hab
  have h2 := List.Nodup.map hinj hnd
  simpa [dKeys, othersOf, List.map_map, Function.comp] using h2

/-- `_merge_tool_output` in closed form: slot/context sub-dicts folded in
key-by-key, then the namespaced other keys. -/
theorem merge_tool_output_eq (r : Results) (tool : Val) (m : Dict) :
    merge_tool_output r tool (.vObj m) =
      { r with slots := dUpdate r.slots (slotsPart m),
               context := dUpdate (dUpdate r.context (ctxPart m)) (othersOf tool m) } := by
  have hof := others_fold tool m
  cases hsl : dGet m ("slots") with
  | none =>
      cases hcx : dGet m ("context") with
      | none =>
          simp only [merge_tool_output, hsl, hcx]
          rw [hof]
          simp [slotsPart, ctxPart, hsl, hcx, dUpdate_nil]
      | some cv =>
          cases cv <;>
            (simp only [merge_tool_output, hsl, hcx]; rw [hof];
             simp [slotsPart, ctxPart, hsl, hcx, dUpdate_nil])
  | some sv =>
      cases hcx : dGet m ("context") with
      | none =>
          cases sv <;>
            (simp only [merge_tool_output, hsl, hcx]; rw [hof];
             simp [slotsPart, ctxPart, hsl, hcx, dUpdate_nil])
      | some cv =>
          cases sv <;> cases cv <;>
            (simp only [merge_tool_output, hsl, hcx]; rw [hof];
             simp [slotsPart, ctxPart, hsl, hcx, dUpdate_nil])

theorem mergeWf_unpack (tool : Val) (m : Dict) (h : mergeWf tool m = true) :
    (dKeys m).Nodup ∧ (dKeys (slotsPart m)).Nodup ∧ (dKeys (ctxPart m)).Nodup ∧
    (∀ kv ∈ ctxPart m, kv.1 ∉ dKeys (othersOf tool m)) := by
  have hdi : ∀ cx : Dict, dGet m ("context") = some (.vObj cx) →
      (m.all (fun kv =>
        (kv.1 == ("slots") || kv.1 == ("context")) ||
        decide ((pyStr tool ++ ("_") ++ kv.1) ∉ dKeys cx)) = true) →
      ∀ kv ∈ cx, kv.1 ∉ dKeys (othersOf tool m) := by
    intro cx hcx hall kv hkv hmem
    simp only [othersOf, dKeys, List.map_map, List.mem_map, Function.comp] at hmem
    rcases hmem with ⟨kv2, hkv2, hkeq⟩
    have hm2 : kv2 ∈ m := List.mem_of_mem_filter hkv2
    have hflt := List.of_mem_filter hkv2
    have := List.all_eq_true.mp hall kv2 hm2
    rw [Bool.or_eq_true] at this
    rcases this with hbad | hgood
    · rw [hbad] at hflt
      simp at hflt
    · have hnotin := of_decide_eq_true hgood
      apply hnotin
      rw [hkeq]
      exact List.mem_map.mpr ⟨kv, hkv, rfl⟩
  cases hsl : dGet m ("slots") with
  | none =>
      cases hcx : dGet m ("context") with
      | none =>
          simp only [mergeWf, hsl, hcx, Bool.and_true] at h
          exact ⟨by simpa using h, by simp [slotsPart, hsl, dKeys], by simp [ctxPart, hcx, dKeys],
            by simp [ctxPart, hcx]⟩
      | some cv =>
          cases cv <;>
            [ (simp only [mergeWf, hsl, hcx, Bool.and_true] at h;
               exact ⟨by simpa using h, by simp [slotsPart, hsl, dKeys],
                 by simp [ctxPart, hcx, dKeys], by simp [ctxPart, hcx]⟩);
              (simp only [mergeWf, hsl, hcx, Bool.and_true] at h;
               exact ⟨by simpa using h, by simp [slotsPart, hsl, dKeys],
                 by simp [ctxPart, hcx, dKeys], by simp [ctxPart, hcx]⟩);
              (simp only [mergeWf, hsl, hcx, Bool.and_true] at h;
               exact ⟨by simpa using h, by simp [slotsPart, hsl, dKeys],
                 by simp [ctxPart, hcx, dKeys], by simp [ctxPart, hcx]⟩);
              (simp only [mergeWf, hsl, hcx, Bool.and_true] at h;
               exact ⟨by simpa using h, by simp [slotsPart, hsl, dKeys],
                 by simp [ctxPart, hcx, dKeys], by simp [ctxPart, hcx]⟩);
              (simp only [mergeWf, hsl, hcx, Bool.and_true] at h;
               exact ⟨by simpa using h, by simp [slotsPart, hsl, dKeys],
                 by simp [ctxPart, hcx, dKeys], by simp [ctxPart, hcx]⟩);
              skip ]
          · rename_i cx
            simp only [mergeWf, hsl, hcx, Bool.and_eq_true] at h
            obtain ⟨⟨hm, -⟩, hcxw, hall⟩ := h
            exact ⟨of_decide_eq_true hm, by simp [slotsPart, hsl, dKeys],
              by simpa [ctxPart, hcx] using of_decide_eq_true hcxw,
              by simpa [ctxPart, hcx] using hdi cx hcx hall⟩
  | some sv =>
      have hslots : (dKeys (slotsPart m)).Nodup → True := fun _ => trivial
      cases hcx : dGet m ("context") with
      | none =>
          cases sv <;>
            (simp only [mergeWf, hsl, hcx, Bool.and_true, Bool.and_eq_true] at h;
             first
               | (obtain ⟨hm, hslw⟩ := h;
                  exact ⟨of_decide_eq_true hm,
                    by simpa [slotsPart, hsl] using of_decide_eq_true hslw,
                    by simp [ctxPart, hcx, dKeys], by simp [ctxPart, hcx]⟩)
               | exact ⟨by simpa using h, by simp [slotsPart, hsl, dKeys],
                   by simp [ctxPart, hcx, dKeys], by simp [ctxPart, hcx]⟩)
      | some cv =>
          cases sv <;> cases cv <;>
            (simp only [mergeWf, hsl, hcx, Bool.and_true, Bool.and_eq_true] at h;
             first
               | (obtain ⟨⟨hm, hslw⟩, hcxw, hall⟩ := h;
                  rename_i cx;
                  exact ⟨of_decide_eq_true hm,
                    by simpa [slotsPart, hsl] using of_decide_eq_true hslw,
                    by simpa [ctxPart, hcx] using of_decide_eq_true hcxw,
                    by simpa [ctxPart, hcx] using hdi cx hcx hall⟩)
               | (obtain ⟨hm, hcxw, hall⟩ := h;
                  rename_i cx;
                  exact ⟨of_decide_eq_true hm, by simp [slotsPart, hsl, dKeys],
                    by simpa [ctxPart, hcx] using of_decide_eq_true hcxw,
                    by simpa [ctxPart, hcx] using hdi cx hcx hall⟩)
               | (obtain ⟨hm, hslw⟩ := h;
                  exact ⟨of_decide_eq_true hm,
                    by simpa [slotsPart, hsl] using of_decide_eq_true hslw,
                    by simp [ctxPart, hcx, dKeys], by simp [ctxPart, hcx]⟩)
               | exact ⟨by simpa using h, by simp [slotsPart, hsl, dKeys],
                   by simp [ctxPart, hcx, dKeys], by simp [ctxPart, hcx]⟩)

/-- C9: merging an identical tool output a second time leaves the
ExecutionResult (context and slots alike) unchanged, for well-formed outputs. -/
theorem C9_merge_idempotent (r : Results) (tool : Val) (m : Dict)
    (h : mergeWf tool m = true) :
    merge_tool_output (merge_tool_output r tool (.vObj m)) tool (.vObj m) =
      merge_tool_output r tool (.vObj m) := by
  obtain ⟨hm, hsp, hcp, hdisj⟩ := mergeWf_unpack tool m h
  have hno := nodup_others_keys tool m hm
  rw [merge_tool_output_eq, merge_tool_output_eq]
  have hslots : dUpdate (dUpdate r.slots (slotsPart m)) (slotsPart m) =
      dUpdate r.slots (slotsPart m) :=
    dUpdate_noop _ _ (fun kv hkv => dGet_dUpdate_of_nodup _ _ _ _ (by simpa [dKeys] using hsp) hkv)
  have hctx :
      dUpdate (dUpdate (dUpdate (dUpdate r.context (ctxPart m)) (othersOf tool m)) (ctxPart m))
        (othersOf tool m) =
      dUpdate (dUpdate r.context (ctxPart m)) (othersOf tool m) := by
    have s1 : dUpdate (dUpdate (dUpdate r.context (ctxPart m)) (othersOf tool m)) (ctxPart m) =
        dUpdate (dUpdate r.context (ctxPart m)) (othersOf tool m) := by
      apply dUpdate_noop
      intro kv hkv
      rw [dGet_dUpdate_not_mem _ _ _ (by simpa [dKeys] using hdisj kv hkv)]
      exact dGet_dUpdate_of_nodup _ _ _ _ (by simpa [dKeys] using hcp) hkv
    rw [s1]
    apply dUpdate_noop
    intro kv hkv
    exact dGet_dUpdate_of_nodup _ _ _ _ (by simpa [dKeys] using hno) hkv
  simp [hslots, hctx]

/-- Witness for `C9_merge_idempotent` at a concrete tool output carrying
slots, context, and a namespaced passthrough key. -/
theorem C9_merge_idempotent_witness :
    mergeWf (Val.vStr ("T"))
        [(("slots"), Val.vObj [(("origin"), Val.vNum 1)]),
         (("context"), Val.vObj [(("x"), Val.vNum 2)]),
         (("raw"), Val.vNum 3)] = true ∧
    merge_tool_output
        (merge_tool_output ⟨[(("a"), Val.vNum 1)], [], [], []⟩ (.vStr ("T"))
          (.vObj [(("slots"), Val.vObj [(("origin"), Val.vNum 1)]),
                  (("context"), Val.vObj [(("x"), Val.vNum 2)]),
                  (("raw"), Val.vNum 3)]))
        (.vStr ("T"))
        (.vObj [(("slots"), Val.vObj [(("origin"), Val.vNum 1)]),
                (("context"), Val.vObj [(("x"), Val.vNum 2)]),
                (("raw"), Val.vNum 3)]) =
      merge_tool_output ⟨[(("a"), Val.vNum 1)], [], [], []⟩ (.vStr ("T"))
        (.vObj [(("slots"), Val.vObj [(("origin"), Val.vNum 1)]),
                (("context"), Val.vObj [(("x"), Val.vNum 2)]),
                (("raw"), Val.vNum 3)]) :=
  ⟨by decide, C9_merge_idempotent ⟨[(("a"), Val.vNum 1)], [], [], []⟩ (.vStr ("T")) _ (by decide)⟩

end C9

section C2

/-- C2: placeholder typing.  (i) A string that is exactly one
`$\x7bpath\x7d` expression (no `\x7b\x7bpath\x7d\x7d` present) resolves to
the native looked-up value whenever the lookup hits a non-`None` value.
(ii) Concretely, `$\x7bslots.origin.lat\x7d` against an origin slot with
`lat=40.71` yields the number `40.71`, not a string.  (iii) The same path
embedded in larger text is substituted in stringified form, and (iv) the
`\x7b\x7bpath\x7d\x7d` syntax always stringifies. -/
theorem C2_placeholder_typing :
    (∀ (ws : WorldStateE) (cs : Dict) (r : Results) (s : String) (inner : String) (v : Val),
      (strHasSub s ("\x7b\x7b") && strHasSub s ("\x7d\x7d")) = false →
      fullDollarMatch (pyStrip s).data = some inner →
      lookupFound ws cs r (pyStrip inner) = v →
      isNull v = false →
      substitute_placeholders (.vStr s) ws cs r = v) ∧
    substitute_placeholders (.vStr ("$\x7bslots.origin.lat\x7d")) wsEx csEx rEmpty =
      .vNum (mkRat 4071 100) ∧
    substitute_placeholders (.vStr ("lat is $\x7bslots.origin.lat\x7d")) wsEx csEx rEmpty =
      .vStr ("lat is 40.71") ∧
    substitute_placeholders (.vStr ("\x7b\x7bslots.origin.lat\x7d\x7d")) wsEx csEx rEmpty =
      .vStr ("40.71") := by
  refine ⟨?_, rfl, rfl, rfl⟩
  intro ws cs r s inner v hbb hfm hlk hnn
  simp only [substitute_placeholders, hbb, Bool.false_eq_true, if_false, hfm, hlk, hnn]

/-- Witness for `C2_placeholder_typing`: the native-value clause applied at
the concrete `$\x7bslots.origin.lat\x7d` lookup. -/
theorem C2_placeholder_typing_witness :
    fullDollarMatch (pyStrip ("$\x7bslots.origin.lat\x7d")).data = some ("slots.origin.lat") ∧
    substitute_placeholders (.vStr ("$\x7bslots.origin.lat\x7d")) wsEx csEx rEmpty =
      .vNum (mkRat 4071 100) :=
  ⟨rfl, C2_placeholder_typing.1 wsEx csEx rEmpty ("$\x7bslots.origin.lat\x7d")
    ("slots.origin.lat") (.vNum (mkRat 4071 100)) rfl rfl rfl rfl⟩

end C2

section C8

theorem hasSub_infix_iff (sub l : List Char) : hasSub sub l = true ↔ sub <:+: l := by
  induction l with
  | nil =>
      simp [hasSub, List.isEmpty_iff]
  | cons c rest ih =>
      simp only [hasSub, Bool.or_eq_true, ih, List.infix_cons_iff, List.isPrefixOf_iff_prefix]

theorem dollarMatchAt_some (cs inner rem2 : List Char)
    (h : dollarMatchAt cs = some (inner, rem2)) :
    cs = '$' :: '{' :: (inner ++ '}' :: rem2) := by
  rcases cs with _ | ⟨c, _ | ⟨c2, rest2⟩⟩
  · simp [dollarMatchAt] at h
  · simp [dollarMatchAt] at h
  · simp only [dollarMatchAt] at h
    by_cases hc : c = ('$') ∧ c2 = ('{')
    · obtain ⟨hc1, hc2⟩ := hc
      subst hc1
      subst hc2
      rw [if_pos ⟨rfl, rfl⟩] at h
      by_cases hie : (rest2.takeWhile (fun ch => !(ch == ('}')))).isEmpty
      · rw [if_pos hie] at h
        cases h
      · rw [if_neg hie] at h
        rcases hdw : rest2.dropWhile (fun ch => !(ch == ('}'))) with _ | ⟨r0, rs⟩
        · rw [hdw] at h
          cases h
        · rw [hdw] at h
          have h2 : (if r0 = ('}') then
              some (rest2.takeWhile (fun ch => !(ch == ('}'))), rs) else none) =
              some (inner, rem2) := h
          by_cases hr0 : r0 = ('}')
          · rw [if_pos hr0] at h2
            injection h2 with h3
            injection h3 with h4 h5
            subst h4
            subst h5
            subst hr0
            have := List.takeWhile_append_dropWhile (p := fun ch => !(ch == ('}'))) (l := rest2)
            rw [hdw] at this
            exact congrArg (fun l => '$' :: '{' :: l) this.symm
          · rw [if_neg hr0] at h2
            cases h2
    · rw [if_neg hc] at h
      cases h

theorem braceMatchAt_some (cs inner rem2 : List Char)
    (h : braceMatchAt cs = some (inner, rem2)) :
    cs = '{' :: '{' :: (inner ++ '}' :: '}' :: rem2) := by
  rcases cs with _ | ⟨c, _ | ⟨c2, rest2⟩⟩
  · simp [braceMatchAt] at h
  · simp [braceMatchAt] at h
  · simp only [braceMatchAt] at h
    by_cases hc : c = ('{') ∧ c2 = ('{')
    · obtain ⟨hc1, hc2⟩ := hc
      subst hc1
      subst hc2
      rw [if_pos ⟨rfl, rfl⟩] at h
      by_cases hie : (rest2.takeWhile (fun ch => !(ch == ('}')))).isEmpty
      · rw [if_pos hie] at h
        cases h
      · rw [if_neg hie] at h
        rcases hdw : rest2.dropWhile (fun ch => !(ch == ('}'))) with _ | ⟨r0, _ | ⟨r1, rs⟩⟩
        · rw [hdw] at h
          cases h
        · rw [hdw] at h
          cases h
        · rw [hdw] at h
          have h2 : (if r0 = ('}') ∧ r1 = ('}') then
              some (rest2.takeWhile (fun ch => !(ch == ('}'))), rs) else none) =
              some (inner, rem2) := h
          by_cases hr0 : r0 = ('}') ∧ r1 = ('}')
          · rw [if_pos hr0] at h2
            injection h2 with h3
            injection h3 with h4 h5
            subst h4
            subst h5
            obtain ⟨hx, hy⟩ := hr0
            subst hx
            subst hy
            have := List.takeWhile_append_dropWhile (p := fun ch => !(ch == ('}'))) (l := rest2)
            rw [hdw] at this
            exact congrArg (fun l => '{' :: '{' :: l) this.symm
          · rw [if_neg hr0] at h2
            cases h2
    · rw [if_neg hc] at h
      cases h

theorem subDollarAux_id (L : String → Val) :
    ∀ (fuel : Nat) (cs : List Char), cs.length ≤ fuel →
      (∀ p ∈ dollarPaths fuel cs, isNull (L p) = true) →
      subDollarAux L fuel cs = cs := by
  intro fuel
  induction fuel with
  | zero => intro cs _ _; rfl
  | succ f ih =>
      intro cs hlen hL
      rcases cs with _ | ⟨c, rest⟩
      · rfl
      · rw [subDollarAux]
        cases hm : dollarMatchAt (c :: rest) with
        | none =>
            have hL2 : ∀ p ∈ dollarPaths f rest, isNull (L p) = true := by
              intro p hp
              exact hL p (by simp [dollarPaths, hm, hp])
            rw [ih rest (by simpa using Nat.le_of_succ_le_succ hlen) hL2]
        | some p =>
            rcases p with ⟨inner, rem2⟩
            have hcs := dollarMatchAt_some _ _ _ hm
            have hl2 : rem2.length ≤ f := by
              have := congrArg List.length hcs
              simp at this
              simp at hlen
              omega
            have hLhead : isNull (L (pyStrip (String.mk inner))) = true :=
              hL _ (by simp [dollarPaths, hm])
            have hL2 : ∀ p ∈ dollarPaths f rem2, isNull (L p) = true := by
              intro p hp
              exact hL p (by simp [dollarPaths, hm, hp])
            show (if isNull (L (pyStrip (String.mk inner))) then '$' :: '{' :: (inner ++ ['}'])
                else (pyStr (L (pyStrip (String.mk inner)))).data) ++ subDollarAux L f rem2 =
              c :: rest
            rw [hLhead, if_pos rfl, ih rem2 hl2 hL2, hcs]
            simp

theorem subBraceAux_id (L : String → Val) :
    ∀ (fuel : Nat) (cs : List Char), cs.length ≤ fuel →
      (∀ p ∈ bracePaths fuel cs, isNull (L p) = true) →
      subBraceAux L fuel cs = cs := by
  intro fuel
  induction fuel with
  | zero => intro cs _ _; rfl
  | succ f ih =>
      intro cs hlen hL
      rcases cs with _ | ⟨c, rest⟩
      · rfl
      · rw [subBraceAux]
        cases hm : braceMatchAt (c :: rest) with
        | none =>
            have hL2 : ∀ p ∈ bracePaths f rest, isNull (L p) = true := by
              intro p hp
              exact hL p (by simp [bracePaths, hm, hp])
            rw [ih rest (by simpa using Nat.le_of_succ_le_succ hlen) hL2]
        | some p =>
            rcases p with ⟨inner, rem2⟩
            have hcs := braceMatchAt_some _ _ _ hm
            have hl2 : rem2.length ≤ f := by
              have := congrArg List.length hcs
              simp at this
              simp at hlen
              omega
            have hLhead : isNull (L (pyStrip (String.mk inner))) = true :=
              hL _ (by simp [bracePaths, hm])
            have hL2 : ∀ p ∈ bracePaths f rem2, isNull (L p) = true := by
              intro p hp
              exact hL p (by simp [bracePaths, hm, hp])
            show (if isNull (L (pyStrip (String.mk inner))) then '{' :: '{' :: (inner ++ ['}', '}'])
                else (pyStr (L (pyStrip (String.mk inner)))).data) ++ subBraceAux L f rem2 =
              c :: rest
            rw [hLhead, if_pos rfl, ih rem2 hl2 hL2, hcs]
            simp

/-- C8: placeholder resolution is fail-soft.  (i) When every placeholder path
a string references misses all three sources (the lookup comes back `None`),
the string is returned unchanged, with the literal placeholder text left in
place — no error, no `None` substitution.  (ii) A string with no `$\x7b` and
no `\x7b\x7b` is returned unchanged regardless of the sources.  (iii)
Non-string values are always returned unchanged. -/
theorem C8_fail_soft :
    (∀ (ws : WorldStateE) (cs : Dict) (r : Results) (s : String),
      (∀ p ∈ placeholderPaths s, isNull (lookupFound ws cs r p) = true) →
      substitute_placeholders (.vStr s) ws cs r = .vStr s) ∧
    (∀ (ws : WorldStateE) (cs : Dict) (r : Results) (s : String),
      strHasSub s ("$\x7b") = false → strHasSub s ("\x7b\x7b") = false →
      substitute_placeholders (.vStr s) ws cs r = .vStr s) ∧
    (∀ (ws : WorldStateE) (cs : Dict) (r : Results),
      (∀ b, substitute_placeholders (.vBool b) ws cs r = .vBool b) ∧
      (∀ q : ℚ, substitute_placeholders (.vNum q) ws cs r = .vNum q) ∧
      (∀ xs, substitute_placeholders (.vArr xs) ws cs r = .vArr xs) ∧
      (∀ m, substitute_placeholders (.vObj m) ws cs r = .vObj m) ∧
      substitute_placeholders .vNull ws cs r = .vNull) := by
  refine ⟨?_, ?_, ?_⟩
  · intro ws cs r s hmiss
    simp only [substitute_placeholders]
    by_cases hbb : (strHasSub s ("\x7b\x7b") && strHasSub s ("\x7d\x7d")) = true
    · rw [if_pos hbb]
      have hL : ∀ p ∈ bracePaths (s.data.length + 1) s.data,
          isNull (lookupFound ws cs r p) = true := by
        intro p hp
        apply hmiss
        simp only [placeholderPaths]
        rw [if_pos hbb]
        exact hp
      rw [subBraceAux_id _ _ _ (by omega) hL]
    · rw [if_neg hbb]
      cases hfm : fullDollarMatch (pyStrip s).data with
      | some inner =>
          have hn : isNull (lookupFound ws cs r (pyStrip inner)) = true := by
            apply hmiss
            simp only [placeholderPaths]
            rw [if_neg hbb, hfm]
            simp
          simp [hn]
      | none =>
          by_cases hdd : (strHasSub s ("$\x7b") && strHasSub s ("\x7d")) = true
          · rw [if_pos hdd]
            have hL : ∀ p ∈ dollarPaths (s.data.length + 1) s.data,
                isNull (lookupFound ws cs r p) = true := by
              intro p hp
              apply hmiss
              simp only [placeholderPaths]
              rw [if_neg hbb, hfm, if_pos hdd]
              exact hp
            rw [subDollarAux_id _ _ _ (by omega) hL]
          · rw [if_neg hdd]
  · intro ws cs r s hd hb
    have hbb : (strHasSub s ("\x7b\x7b") && strHasSub s ("\x7d\x7d")) = false := by
      simp [hb]
    have hfm : fullDollarMatch (pyStrip s).data = none := by
      cases hfm : fullDollarMatch (pyStrip s).data with
      | none => rfl
      | some inner =>
          exfalso
          rcases hps : (pyStrip s).data with _ | ⟨c, _ | ⟨c2, rest2⟩⟩ <;>
            rw [hps] at hfm
          · simp [fullDollarMatch] at hfm
          · simp [fullDollarMatch] at hfm
          · by_cases hcc : c = ('$') ∧ c2 = ('{')
            · obtain ⟨h1, h2⟩ := hcc
              subst h1
              subst h2
              have hinfix : (['$', '{'] : List Char) <:+: s.data := by
                have hpre : (['$', '{'] : List Char) <+: (pyStrip s).data := by
                  rw [hps]
                  exact ⟨rest2, rfl⟩
                have hstrip : (pyStrip s).data <:+: s.data := by
                  have h1 : (pyStrip s).data = (s.data.dropWhile pyIsSpace).rdropWhile pyIsSpace :=
                    rfl
                  rw [h1]
                  exact ((List.rdropWhile_prefix pyIsSpace (s.data.dropWhile pyIsSpace)).isInfix).trans
                    ((List.dropWhile_suffix pyIsSpace).isInfix)
                exact hpre.isInfix.trans hstrip
              have hsubst : strHasSub s ("$\x7b") = true := by
                have := (hasSub_infix_iff (['$', '{'] : List Char) s.data).mpr hinfix
                simpa [strHasSub] using this
              rw [hsubst] at hd
              cases hd
            · rw [fullDollarMatch, if_neg hcc] at hfm
              cases hfm
    simp only [substitute_placeholders, hbb, Bool.false_eq_true, if_false, hfm]
    have hdd : (strHasSub s ("$\x7b") && strHasSub s ("\x7d")) = false := by
      simp [hd]
    rw [if_neg (by rw [hdd]; exact Bool.false_ne_true)]
  · intro ws cs r
    exact ⟨fun b => rfl, fun q => rfl, fun xs => rfl, fun m => rfl, rfl⟩

/-- Witness for `C8_fail_soft`: a placeholder whose path resolves nowhere is
left in place literally. -/
theorem C8_fail_soft_witness :
    (∀ p ∈ placeholderPaths ("$\x7bnope.nothing\x7d"),
      isNull (lookupFound wsEx csEx rEmpty p) = true) ∧
    substitute_placeholders (.vStr ("$\x7bnope.nothing\x7d")) wsEx csEx rEmpty =
      .vStr ("$\x7bnope.nothing\x7d") := by
  have hp : ∀ p ∈ placeholderPaths ("$\x7bnope.nothing\x7d"),
      isNull (lookupFound wsEx csEx rEmpty p) = true := by
    intro p hp
    have : placeholderPaths ("$\x7bnope.nothing\x7d") = [("nope.nothing")] := rfl
    rw [this] at hp
    simp at hp
    subst hp
    rfl
  exact ⟨hp, (C8_fail_soft).1 wsEx csEx rEmpty ("$\x7bnope.nothing\x7d") hp⟩

end C8

section C10Lemmas

theorem deepMerge_nil (base : Dict) : deepMerge base [] = base := by
  simp [deepMerge]

theorem deepMerge_cons_obj_obj (base : Dict) (k : String) (pv bv : Dict) (rest : Dict)
    (h : dGet base k = some (.vObj bv)) :
    deepMerge base ((k, .vObj pv) :: rest) =
      deepMerge (dSet base k (.vObj (deepMerge bv pv))) rest := by
  simp [deepMerge, h]

theorem deepMerge_cons_nonobj (base : Dict) (k : String) (v : Val) (rest : Dict)
    (h : ∀ pv, v ≠ .vObj pv) :
    deepMerge base ((k, v) :: rest) = deepMerge (dSet base k v) rest := by
  cases v <;> first | exact absurd rfl (h _) | simp [deepMerge]

theorem deepMerge_cons_any (base : Dict) (k : String) (v : Val) (rest : Dict) :
    ∃ w, deepMerge base ((k, v) :: rest) = deepMerge (dSet base k w) rest := by
  cases v with
  | vObj pv =>
      cases hg : dGet base k with
      | none => exact ⟨.vObj pv, by simp [deepMerge, hg]⟩
      | some bval =>
          cases bval with
          | vObj bv => exact ⟨.vObj (deepMerge bv pv), by simp [deepMerge, hg]⟩
          | vNull => exact ⟨.vObj pv, by simp [deepMerge, hg]⟩
          | vBool b => exact ⟨.vObj pv, by simp [deepMerge, hg]⟩
          | vNum q => exact ⟨.vObj pv, by simp [deepMerge, hg]⟩
          | vStr s => exact ⟨.vObj pv, by simp [deepMerge, hg]⟩
          | vArr xs => exact ⟨.vObj pv, by simp [deepMerge, hg]⟩
  | vNull => exact ⟨.vNull, by simp [deepMerge]⟩
  | vBool b => exact ⟨.vBool b, by simp [deepMerge]⟩
  | vNum q => exact ⟨.vNum q, by simp [deepMerge]⟩
  | vStr s => exact ⟨.vStr s, by simp [deepMerge]⟩
  | vArr xs => exact ⟨.vArr xs, by simp [deepMerge]⟩

theorem dGet_mem (d : Dict) (k : String) (v : Val) (h : dGet d k = some v) : (k, v) ∈ d := by
  induction d with
  | nil => simp [dGet] at h
  | cons p rest ih =>
      rcases p with ⟨k1, v1⟩
      by_cases h1 : k1 = k
      · subst h1
        simp [dGet] at h
        simp [h]
      · simp [dGet, h1] at h
        exact List.mem_cons_of_mem _ (ih h)

theorem dKeys_dSet_self (d : Dict) (k : String) (v : Val) : k ∈ dKeys (dSet d k v) := by
  induction d with
  | nil => simp [dSet, dKeys]
  | cons p rest ih =>
      rcases p with ⟨k1, v1⟩
      by_cases h1 : k1 = k
      · subst h1
        simp [dSet, dKeys]
      · simp only [dSet, if_neg h1, dKeys, List.map_cons, List.mem_cons]
        exact Or.inr ih

theorem dKeys_deepMerge_base (patch : Dict) : ∀ (base : Dict) (k : String),
    k ∈ dKeys base → k ∈ dKeys (deepMerge base patch) := by
  induction patch with
  | nil =>
      intro base k h
      rw [deepMerge_nil]
      exact h
  | cons p rest ih =>
      intro base k h
      rcases p with ⟨k1, v1⟩
      obtain ⟨w, hw⟩ := deepMerge_cons_any base k1 v1 rest
      rw [hw]
      exact ih _ _ (dKeys_dSet_mem base k1 k w h)

theorem dKeys_deepMerge_patch (patch : Dict) : ∀ (base : Dict) (k : String),
    k ∈ dKeys patch → k ∈ dKeys (deepMerge base patch) := by
  induction patch with
  | nil =>
      intro base k h
      simp [dKeys] at h
  | cons p rest ih =>
      intro base k h
      rcases p with ⟨k1, v1⟩
      obtain ⟨w, hw⟩ := deepMerge_cons_any base k1 v1 rest
      rw [hw]
      simp only [dKeys, List.map_cons, List.mem_cons] at h
      rcases h with h | h
      · subst h
        exact dKeys_deepMerge_base rest _ _ (dKeys_dSet_self base k w)
      · exact ih _ _ h

theorem dGet_deepMerge_not_mem (patch : Dict) : ∀ (base : Dict) (k : String),
    k ∉ dKeys patch → dGet (deepMerge base patch) k = dGet base k := by
  induction patch with
  | nil =>
      intro base k _
      rw [deepMerge_nil]
  | cons p rest ih =>
      intro base k h
      rcases p with ⟨k1, v1⟩
      simp only [dKeys, List.map_cons, List.mem_cons] at h
      push_neg at h
      obtain ⟨w, hw⟩ := deepMerge_cons_any base k1 v1 rest
      rw [hw, ih _ _ (by simpa [dKeys] using h.2), dGet_dSet_ne base k1 k w h.1]

theorem dGet_deepMerge_nonobj (patch : Dict) : ∀ (base : Dict) (k : String) (v : Val),
    (dKeys patch).Nodup → (k, v) ∈ patch → (∀ pv, v ≠ .vObj pv) →
    dGet (deepMerge base patch) k = some v := by
  induction patch with
  | nil =>
      intro base k v _ hm _
      simp at hm
  | cons p rest ih =>
      intro base k v hnd hm hv
      rcases p with ⟨k1, v1⟩
      simp only [dKeys, List.map_cons, List.nodup_cons] at hnd
      rcases List.mem_cons.mp hm with h | h
      · obtain ⟨rfl, rfl⟩ := Prod.mk.inj h
        rw [deepMerge_cons_nonobj base k v rest hv,
          dGet_deepMerge_not_mem rest _ k (by simpa [dKeys] using hnd.1), dGet_dSet]
      · have hkmem : k ∈ List.map (fun p => p.1) rest :=
          List.mem_map_of_mem (fun p => p.1) h
        have hne : k ≠ k1 := fun hh => hnd.1 (hh ▸ hkmem)
        obtain ⟨w, hw⟩ := deepMerge_cons_any base k1 v1 rest
        rw [hw]
        exact ih _ _ _ hnd.2 h hv

theorem dGet_deepMerge_obj_obj (patch : Dict) : ∀ (base bv pv : Dict) (k : String),
    (dKeys patch).Nodup → (k, .vObj pv) ∈ patch → dGet base k = some (.vObj bv) →
    dGet (deepMerge base patch) k = some (.vObj (deepMerge bv pv)) := by
  induction patch with
  | nil =>
      intro base bv pv k _ hm _
      simp at hm
  | cons p rest ih =>
      intro base bv pv k hnd hm hb
      rcases p with ⟨k1, v1⟩
      simp only [dKeys, List.map_cons, List.nodup_cons] at hnd
      rcases List.mem_cons.mp hm with h | h
      · obtain ⟨rfl, rfl⟩ := Prod.mk.inj h
        rw [deepMerge_cons_obj_obj base k pv bv rest hb,
          dGet_deepMerge_not_mem rest _ k (by simpa [dKeys] using hnd.1), dGet_dSet]
      · have hkmem : k ∈ List.map (fun p => p.1) rest :=
          List.mem_map_of_mem (fun p => p.1) h
        have hne : k ≠ k1 := fun hh => hnd.1 (hh ▸ hkmem)
        obtain ⟨w, hw⟩ := deepMerge_cons_any base k1 v1 rest
        rw [hw]
        refine ih _ _ _ _ hnd.2 h ?_
        rw [dGet_dSet_ne base k1 k w hne]
        exact hb

theorem navDicts_deepMerge (path : List String) : ∀ (base patch bd pd : Dict),
    navWfB patch path = true →
    navDicts base path = some bd → navDicts patch path = some pd →
    navDicts (deepMerge base patch) path = some (deepMerge bd pd) := by
  induction path with
  | nil =>
      intro base patch bd pd _ hb hp
      simp [navDicts] at hb hp
      subst hb
      subst hp
      rfl
  | cons k rest ih =>
      intro base patch bd pd hwf hb hp
      simp only [navDicts] at hb hp
      cases hgb : dGet base k with
      | none =>
          rw [hgb] at hb
          simp at hb
      | some bval =>
          rw [hgb] at hb
          cases bval with
          | vNull => simp at hb
          | vBool b => simp at hb
          | vNum q => simp at hb
          | vStr s => simp at hb
          | vArr xs => simp at hb
          | vObj bd2 =>
              simp only [] at hb
              cases hgp : dGet patch k with
              | none =>
                  rw [hgp] at hp
                  simp at hp
              | some pval =>
                  rw [hgp] at hp
                  cases pval with
                  | vNull => simp at hp
                  | vBool b => simp at hp
                  | vNum q => simp at hp
                  | vStr s => simp at hp
                  | vArr xs => simp at hp
                  | vObj pd2 =>
                      simp only [] at hp
                      simp only [navWfB] at hwf
                      rw [hgp] at hwf
                      simp only [Bool.and_eq_true, decide_eq_true_eq] at hwf
                      obtain ⟨hnd, hwf2⟩ := hwf
                      have hmem : (k, .vObj pd2) ∈ patch := dGet_mem patch k _ hgp
                      have hfetch := dGet_deepMerge_obj_obj patch base bd2 pd2 k hnd hmem hgb
                      simp only [navDicts]
                      rw [hfetch]
                      exact ih bd2 pd2 bd pd hwf2 hb hp

end C10Lemmas

section C10

/-- C10: `deepMerge` never deletes state.  (i) Every top-level key of `base`
is still present after the merge; (ii) every key of `patch` is present
afterwards (added or overwritten); (iii) keys absent from `patch` keep their
exact `base` value; (iv) a non-dict patch value overwrites (its key maps to
exactly that value afterwards, given a duplicate-free patch); (v) along any
key chain that is dict-valued in both `base` and `patch` (with the patch
dicts duplicate-free, as every Python dict is), the merged state navigates to
the recursive `deepMerge` of the two sub-dicts — so at that depth, too, every
`base` key survives by (i). -/
theorem C10_deepMerge_never_deletes :
    (∀ (base patch : Dict) (k : String), k ∈ dKeys base → k ∈ dKeys (deepMerge base patch)) ∧
    (∀ (base patch : Dict) (k : String), k ∈ dKeys patch → k ∈ dKeys (deepMerge base patch)) ∧
    (∀ (base patch : Dict) (k : String), k ∉ dKeys patch →
      dGet (deepMerge base patch) k = dGet base k) ∧
    (∀ (base patch : Dict) (k : String) (v : Val), (dKeys patch).Nodup → (k, v) ∈ patch →
      (∀ pv, v ≠ .vObj pv) → dGet (deepMerge base patch) k = some v) ∧
    (∀ (path : List String) (base patch bd pd : Dict),
      navWfB patch path = true → navDicts base path = some bd →
      navDicts patch path = some pd →
      navDicts (deepMerge base patch) path = some (deepMerge bd pd) ∧
      ∀ k ∈ dKeys bd, k ∈ dKeys (deepMerge bd pd)) := by
  refine ⟨fun b p k h => dKeys_deepMerge_base p b k h,
    fun b p k h => dKeys_deepMerge_patch p b k h,
    fun b p k h => dGet_deepMerge_not_mem p b k h,
    fun b p k v hnd hm hv => dGet_deepMerge_nonobj p b k v hnd hm hv,
    fun path b p bd pd hwf hb hp =>
      ⟨navDicts_deepMerge path b p bd pd hwf hb hp,
       fun k hk => dKeys_deepMerge_base pd bd k hk⟩⟩

/-- Witness for `C10_deepMerge_never_deletes` on a concrete nested pair:
the shared key `a` merges recursively (keeping `x` while gaining `y`), the
untouched key `b` keeps its value, and the fresh key `c` is added. -/
theorem C10_deepMerge_never_deletes_witness :
    navWfB patchC10 [("a")] = true ∧
    navDicts (deepMerge baseC10 patchC10) [("a")] =
      some (deepMerge [(("x"), Val.vNum 1)] [(("y"), Val.vNum 3)]) ∧
    (("x")) ∈ dKeys (deepMerge [(("x"), Val.vNum 1)] [(("y"), Val.vNum 3)]) ∧
    dGet (deepMerge baseC10 patchC10) ("b") = dGet baseC10 ("b") ∧
    dGet (deepMerge baseC10 patchC10) ("c") = some (Val.vNum 4) := by
  have h := C10_deepMerge_never_deletes
  have h5 := h.2.2.2.2 [("a")] baseC10 patchC10 [(("x"), Val.vNum 1)] [(("y"), Val.vNum 3)]
    (by decide) rfl rfl
  refine ⟨by decide, h5.1, h5.2 ("x") (by decide), ?_, ?_⟩
  · exact h.2.2.1 baseC10 patchC10 ("b") (by decide)
  · exact h.2.2.2.1 baseC10 patchC10 ("c") (Val.vNum 4) (by decide)
      (List.mem_cons_of_mem _ (List.mem_cons_self _ _)) (fun pv hh => nomatch hh)

end C10
